import Mathlib

/-!
Verification of the MediaDownloader job service (`app.py`) against its
specification.  The Python source is shallowly embedded: pure helper
functions become Lean functions over `List Char` / `String`, the mutable
job map becomes explicit state passing, and the background download job
becomes a trace of progress-hook events followed by a terminal outcome.
Python machine floats are modelled as exact rationals and Python `int`
division/truncation as `Nat` floor division.
-/

deriving instance DecidableEq for Except

namespace MediaDL

/-! ## Python string primitives

Helpers modelling the CPython `str` operations the source uses.  All core
definitions work on `List Char`; `String` wrappers sit at the boundary.
Case folding is modelled at the ASCII level.
-/

/-- ASCII lower-casing of one character (model of `str.lower`). -/
def pyLowerChar (c : Char) : Char :=
  if 'A' ≤ c ∧ c ≤ 'Z' then Char.ofNat (c.toNat + 32) else c

/-- Model of `str.lower` on a character list. -/
def lowerStr (s : List Char) : List Char := s.map pyLowerChar

/-- The characters `str.strip()` removes (ASCII whitespace). -/
def pyIsSpaceChar (c : Char) : Bool :=
  c = ' ' || c = '\t' || c = '\n' || c = '\r' || c = '\x0b' || c = '\x0c'

/-- Remove a maximal run of characters satisfying `p` from the right end. -/
def pyDropTrailing (p : Char → Bool) (s : List Char) : List Char :=
  (s.reverse.dropWhile p).reverse

/-- Model of `str.strip(chars)`: drop characters satisfying `p` from both ends. -/
def pyStripBoth (p : Char → Bool) (s : List Char) : List Char :=
  pyDropTrailing p (s.dropWhile p)

/-- Model of `str.strip()` (no argument). -/
def pyStripWS (s : List Char) : List Char := pyStripBoth pyIsSpaceChar s

/-- `String` wrapper for `str.strip()`. -/
def pyStripStr (s : String) : String := ⟨pyStripWS s.data⟩

/-- `String` wrapper for `str.lower()`. -/
def pyLowerStr (s : String) : String := ⟨lowerStr s.data⟩

/-- Model of `str.split(sep)` for a one-character separator. -/
def splitOnChar (sep : Char) : List Char → List (List Char)
  | [] => [[]]
  | c :: rest =>
    let r := splitOnChar sep rest
    if c = sep then [] :: r
    else
      match r with
      | [] => [[c]]
      | x :: xs => (c :: x) :: xs

/-- Index of the last occurrence of `t`, if any (model of `str.rfind`). -/
def rfindChar (t : Char) : List Char → Option Nat
  | [] => none
  | c :: rest =>
    match rfindChar t rest with
    | some i => some (i + 1)
    | none => if c = t then some 0 else none

/-- Model of `pattern in s` (Python substring containment). -/
def containsSub (pat : List Char) : List Char → Bool
  | [] => pat.isPrefixOf []
  | c :: rest => pat.isPrefixOf (c :: rest) || containsSub pat rest

/-- Fuel-driven worker for `strReplaceAll`; the fuel bounds recursion depth so
that the definition is structural and evaluates inside the kernel. -/
def strReplaceAllAux (pat rep : List Char) : Nat → List Char → List Char
  | 0, s => s
  | _ + 1, [] => []
  | fuel + 1, c :: rest =>
    if pat ≠ [] ∧ pat.isPrefixOf (c :: rest) then
      rep ++ strReplaceAllAux pat rep fuel ((c :: rest).drop pat.length)
    else
      c :: strReplaceAllAux pat rep fuel rest

/-- Model of `str.replace(pat, rep)`: replace every non-overlapping occurrence
of `pat`, scanning left to right.  (`pat` is nonempty at every use site.) -/
def strReplaceAll (s pat rep : List Char) : List Char :=
  strReplaceAllAux pat rep (s.length + 1) s

/-! ## Path Sanitizer (`sanitize_file_basename`, app.py lines 185-191)

The source runs the user-supplied name through `str.strip()`, drops the
`pathlib` extension if one is present, replaces every character outside
`[A-Za-z0-9._ -]` with an underscore, strips spaces and dots from the ends
and maps an empty result to `None`.  `pathlib` is modelled with the POSIX
separator `/`.
-/

/-- A character kept verbatim by the `re.sub(r"[^A-Za-z0-9._ -]", "_", ...)`
substitution. -/
def keepChar (c : Char) : Bool :=
  ('A' ≤ c && c ≤ 'Z') || ('a' ≤ c && c ≤ 'z') || ('0' ≤ c && c ≤ '9') ||
    c = '.' || c = '_' || c = ' ' || c = '-'

/-- The non-anchor components of a `pathlib` path: split on `/`, dropping
empty components and `.` components. -/
def pathComponents (s : List Char) : List (List Char) :=
  (splitOnChar '/' s).filter (fun comp => !comp.isEmpty && !(comp == ['.']))

/-- Model of `pathlib.PurePath.name`. -/
def pyName (s : List Char) : List Char := (pathComponents s).getLastD []

/-- Model of `pathlib.PurePath.suffix`: the part of the name from its last
dot, provided that dot is neither the first nor the last character. -/
def pySuffix (s : List Char) : List Char :=
  let n := pyName s
  match rfindChar '.' n with
  | some i => if 0 < i ∧ i + 1 < n.length then n.drop i else []
  | none => []

/-- Model of `pathlib.PurePath.stem`. -/
def pyStem (s : List Char) : List Char :=
  let n := pyName s
  match rfindChar '.' n with
  | some i => if 0 < i ∧ i + 1 < n.length then n.take i else n
  | none => n

/-- First step of `sanitize_file_basename`:
`text = str(name).strip()`, then `Path(text).stem if Path(text).suffix
else text`. -/
def sanitizeStem (s : List Char) : List Char :=
  let text := pyStripWS s
  if pySuffix text ≠ [] then pyStem text else text

/-- Second step: `re.sub(r"[^A-Za-z0-9._ -]", "_", text).strip(" .")`. -/
def sanitizeSafe (s : List Char) : List Char :=
  pyStripBoth (fun c => c = ' ' || c = '.')
    ((sanitizeStem s).map (fun c => if keepChar c then c else '_'))

/-- Core of `sanitize_file_basename` on character lists
(`return safe or None`). -/
def sanitizeCore (s : List Char) : Option (List Char) :=
  if sanitizeSafe s = [] then none else some (sanitizeSafe s)

/-- `sanitize_file_basename(name)` from app.py: `None` passes through, an
empty sanitised result becomes `None`. -/
def sanitize_file_basename : Option String → Option String
  | none => none
  | some name => (sanitizeCore name.data).map (fun l => ⟨l⟩)

/-! ## Format Policy (`get_format_selector`, app.py lines 144-182)

A `ValueError` raised by the source becomes `Except.error`.
-/

/-- The `quality_map` dictionary lookup. -/
def qualityMap (q : String) : Option String :=
  if q = "360p" then some "360"
  else if q = "720p" then some "720"
  else if q = "1080p60" then some "1080"
  else none

/-- `get_format_selector(fmt, quality, sound_on)` from app.py. -/
def get_format_selector (fmt quality : String) (sound_on : Bool) :
    Except String String :=
  match qualityMap quality with
  | none => .error "Unsupported quality"
  | some max_h =>
    if fmt = "mp3" then .ok "bestaudio/best"
    else if fmt ≠ "mp4" then .error "Unsupported format"
    else if quality = "1080p60" then
      if sound_on then
        .ok ("bestvideo[ext=mp4][height<=1080][fps>=60]+bestaudio[ext=m4a]" ++
          "/bestvideo[height<=1080][fps>=60]+bestaudio" ++
          "/best[ext=mp4][height<=1080][fps>=60]" ++
          "/best[height<=1080]")
      else
        .ok ("bestvideo[ext=mp4][height<=1080][fps>=60]" ++
          "/bestvideo[height<=1080][fps>=60]" ++
          "/bestvideo[height<=1080]")
    else if sound_on then
      .ok ("bestvideo[ext=mp4][height<=" ++ max_h ++ "]+bestaudio[ext=m4a]" ++
        "/best[ext=mp4][height<=" ++ max_h ++ "]" ++
        "/best[height<=" ++ max_h ++ "]")
    else
      .ok ("bestvideo[ext=mp4][height<=" ++ max_h ++ "]/bestvideo[height<=" ++
        max_h ++ "]")

/-! ## Python values and the job records

`PyVal` covers the JSON-derived Python values the job code stores and
tests for truthiness.  `pyobj` stands for any other value (list/dict);
only its truthiness is ever consulted by the embedded code paths.
-/

inductive PyVal where
  | pynone
  | pybool (b : Bool)
  | pynum (q : ℚ)
  | pystr (s : String)
  | pyobj (truthy : Bool)
deriving DecidableEq

/-- Python truthiness (`bool(value)`). -/
def pyTruthy : PyVal → Bool
  | .pynone => false
  | .pybool b => b
  | .pynum q => q ≠ 0
  | .pystr s => s ≠ ""
  | .pyobj t => t

/-- Model of `a or b` for an optional string `a` against a string default:
`None` and the empty string both fall through to `b`. -/
def pyOrStr (a : Option String) (b : String) : String :=
  match a with
  | none => b
  | some s => if s = "" then b else s

/-- A Python job dict: an insertion-ordered association list from field
names to values. -/
abbrev JobRecord := List (String × PyVal)

/-- `record[key] = value`: overwrite the first binding or append a new one. -/
def setField : JobRecord → String → PyVal → JobRecord
  | [], k, v => [(k, v)]
  | (k', v') :: rest, k, v =>
    if k' = k then (k, v) :: rest else (k', v') :: setField rest k v

/-- Model of `dict.update(kwargs)`: merge the keyword fields into the
record, adding or overwriting but never removing keys. -/
def mergeFields (rec : JobRecord) (kwargs : List (String × PyVal)) : JobRecord :=
  kwargs.foldl (fun r kv => setField r kv.1 kv.2) rec

/-- Field lookup (`record[key]` / `record.get(key)`). -/
def getField (rec : JobRecord) (k : String) : Option PyVal :=
  (rec.find? (fun kv => kv.1 = k)).map (·.2)

/-- The record inserted at job creation (app.py lines 589-598 and 632-641):
the complete fixed field set with its initial values. -/
def initialJobRecord (now : ℚ) : JobRecord :=
  [("status", .pystr "queued"),
   ("progress", .pynum 0),
   ("error", .pynone),
   ("file_path", .pynone),
   ("file_name", .pynone),
   ("saved_dir", .pynone),
   ("created_at", .pynum now)]

/-- The job map guarded by `jobs_lock`, as a value-level association list. -/
abbrev JobsMap := List (String × JobRecord)

/-- `jobs[job_id] = record` at creation time. -/
def insertJob (m : JobsMap) (jobId : String) (rec : JobRecord) : JobsMap :=
  m ++ [(jobId, rec)]

/-- Map lookup `jobs.get(job_id)` at the value level. -/
def lookupJob (m : JobsMap) (jobId : String) : Option JobRecord :=
  (m.find? (fun kv => kv.1 = jobId)).map (·.2)

/-- `update_job(job_id, **kwargs)` (app.py lines 64-67) as a value-level map
transformation: merge into the record if the id is known, else no-op. -/
def update_job (m : JobsMap) (jobId : String) (kwargs : List (String × PyVal)) :
    JobsMap :=
  m.map (fun kv => if kv.1 = jobId then (kv.1, mergeFields kv.2 kwargs) else kv)

/-! ## URL parsing (`urllib.parse`)

The source validates URLs through `urlparse` and `parse_qs`.  These model
the CPython splitting behaviour: leading control/space characters are
stripped, tab/CR/LF removed, then the string is split into scheme,
netloc, path, params, query and fragment.  Query keys are percent-decoded
(`unquote_plus`) before comparison, with UTF-8 byte runs decoded and
invalid sequences mapped to U+FFFD.
-/

def isAsciiAlpha (c : Char) : Bool :=
  ('A' ≤ c && c ≤ 'Z') || ('a' ≤ c && c ≤ 'z')

def isAsciiDigit (c : Char) : Bool := '0' ≤ c && c ≤ '9'

/-- The characters permitted in a URL scheme. -/
def isSchemeChar (c : Char) : Bool :=
  isAsciiAlpha c || isAsciiDigit c || c = '+' || c = '-' || c = '.'

/-- Split at the first occurrence of `c`: `(before, after)`; if `c` does not
occur, the whole string is `before` and `after` is empty. -/
def splitAtFirstCh (c : Char) (s : List Char) : List Char × List Char :=
  match s.dropWhile (· ≠ c) with
  | [] => (s, [])
  | _ :: after => (s.takeWhile (· ≠ c), after)

/-- Split around the last occurrence of `c`, if any: `s = pre ++ c :: suf`
with `c ∉ suf`. -/
def breakAtLastCh (c : Char) (s : List Char) : Option (List Char × List Char) :=
  let rev := s.reverse
  match rev.dropWhile (· ≠ c) with
  | [] => none
  | _ :: preR => some (preR.reverse, (rev.takeWhile (· ≠ c)).reverse)

structure UrlParts where
  scheme : List Char
  netloc : List Char
  path : List Char
  params : List Char
  query : List Char
  fragment : List Char
deriving DecidableEq

/-- Model of `urllib.parse.urlsplit` (scheme, netloc, path, query,
fragment; `params` left empty).  CPython's `urlsplit` also raises
`ValueError` for some netlocs — mismatched brackets, invalid bracketed
hosts, non-ASCII netlocs whose NFKC normalisation introduces a
separator — after cutting the netloc out exactly as below.  This model
is total; theorems that need the parse to be exact restrict themselves
to `urlsplitSafe` inputs (ASCII, bracket-free netlocs), where none of
those error paths can fire. -/
def pyUrlsplit (url0 : List Char) : UrlParts :=
  let url1 := url0.dropWhile (fun c => c.toNat ≤ 0x20)
  let url2 := url1.filter (fun c => !(c = '\t' || c = '\r' || c = '\n'))
  let schemeRest :=
    match url2.findIdx? (· = ':') with
    | some i =>
      if 0 < i ∧ (url2.head?.map isAsciiAlpha).getD false ∧
          (url2.take i).all isSchemeChar then
        (lowerStr (url2.take i), url2.drop (i + 1))
      else ([], url2)
    | none => ([], url2)
  let netlocRest :=
    if "//".data.isPrefixOf schemeRest.2 then
      ((schemeRest.2.drop 2).takeWhile (fun c => !(c = '/' || c = '?' || c = '#')),
       (schemeRest.2.drop 2).dropWhile (fun c => !(c = '/' || c = '?' || c = '#')))
    else ([], schemeRest.2)
  let fragSplit := splitAtFirstCh '#' netlocRest.2
  let querySplit := splitAtFirstCh '?' fragSplit.1
  { scheme := schemeRest.1, netloc := netlocRest.1, path := querySplit.1,
    params := [], query := querySplit.2, fragment := fragSplit.2 }

/-- The schemes for which `urlparse` splits path parameters
(`urllib.parse.uses_params`). -/
def usesParams : List (List Char) :=
  ["", "ftp", "hdl", "prospero", "http", "imap", "https", "shttp", "rtsp",
   "rtspu", "sip", "sips", "mms", "sftp", "tel"].map String.data

/-- Model of `urllib.parse._splitparams`: split `;params` off the last path
segment.  Only called when the path contains `;`. -/
def splitParams (p : List Char) : List Char × List Char :=
  if p.contains '/' then
    match breakAtLastCh '/' p with
    | some (pre, suf) =>
      if suf.contains ';' then
        let ab := splitAtFirstCh ';' suf
        (pre ++ '/' :: ab.1, ab.2)
      else (p, [])
    | none => (p, [])
  else splitAtFirstCh ';' p

/-- Model of `urllib.parse.urlparse`. -/
def pyUrlparse (url : List Char) : UrlParts :=
  let sp := pyUrlsplit url
  if usesParams.contains sp.scheme ∧ sp.path.contains ';' then
    let pa := splitParams sp.path
    { sp with path := pa.1, params := pa.2 }
  else sp

def isHexDigit (c : Char) : Bool :=
  isAsciiDigit c || ('a' ≤ c && c ≤ 'f') || ('A' ≤ c && c ≤ 'F')

def hexVal (c : Char) : Nat :=
  if isAsciiDigit c then c.toNat - '0'.toNat
  else if 'a' ≤ c && c ≤ 'f' then c.toNat - 'a'.toNat + 10
  else if 'A' ≤ c && c ≤ 'F' then c.toNat - 'A'.toNat + 10
  else 0

def replacementChar : Char := Char.ofNat 0xFFFD

/-- Continuation-byte test for UTF-8. -/
def isContByte (b : Nat) : Bool := 0x80 ≤ b && b < 0xC0

/-- Fuel-driven UTF-8 decoder with U+FFFD replacement on malformed input
(model of `bytes.decode("utf-8", errors="replace")`). -/
def utf8DecodeAux : Nat → List Nat → List Char
  | 0, _ => []
  | _ + 1, [] => []
  | fuel + 1, b :: rest =>
    if b < 0x80 then Char.ofNat b :: utf8DecodeAux fuel rest
    else if 0xC2 ≤ b ∧ b ≤ 0xDF then
      match rest with
      | b2 :: rest2 =>
        if isContByte b2 then
          Char.ofNat ((b - 0xC0) * 64 + (b2 - 0x80)) :: utf8DecodeAux fuel rest2
        else replacementChar :: utf8DecodeAux fuel rest
      | [] => [replacementChar]
    else if 0xE0 ≤ b ∧ b ≤ 0xEF then
      match rest with
      | b2 :: b3 :: rest3 =>
        if (if b = 0xE0 then 0xA0 ≤ b2 && b2 < 0xC0
            else if b = 0xED then 0x80 ≤ b2 && b2 < 0xA0
            else isContByte b2) && isContByte b3 then
          Char.ofNat ((b - 0xE0) * 4096 + (b2 - 0x80) * 64 + (b3 - 0x80)) ::
            utf8DecodeAux fuel rest3
        else replacementChar :: utf8DecodeAux fuel rest
      | _ => replacementChar :: utf8DecodeAux fuel rest
    else if 0xF0 ≤ b ∧ b ≤ 0xF4 then
      match rest with
      | b2 :: b3 :: b4 :: rest4 =>
        if (if b = 0xF0 then 0x90 ≤ b2 && b2 < 0xC0
            else if b = 0xF4 then 0x80 ≤ b2 && b2 < 0x90
            else isContByte b2) && isContByte b3 && isContByte b4 then
          Char.ofNat ((b - 0xF0) * 262144 + (b2 - 0x80) * 4096 +
              (b3 - 0x80) * 64 + (b4 - 0x80)) :: utf8DecodeAux fuel rest4
        else replacementChar :: utf8DecodeAux fuel rest
      | _ => replacementChar :: utf8DecodeAux fuel rest
    else replacementChar :: utf8DecodeAux fuel rest

def utf8DecodeReplace (bs : List Nat) : List Char :=
  utf8DecodeAux (bs.length + 1) bs

/-- Decode the tail pieces of a `%`-split string: a maximal run of `%XX`
escapes is decoded as one UTF-8 byte run; anything else stays literal. -/
def unquoteRun (acc : List Nat) : List (List Char) → List Char
  | [] => utf8DecodeReplace acc
  | p :: ps =>
    match p with
    | d1 :: d2 :: tail =>
      if isHexDigit d1 ∧ isHexDigit d2 then
        if tail = [] then unquoteRun (acc ++ [hexVal d1 * 16 + hexVal d2]) ps
        else
          utf8DecodeReplace (acc ++ [hexVal d1 * 16 + hexVal d2]) ++ tail ++
            unquoteRun [] ps
      else utf8DecodeReplace acc ++ '%' :: p ++ unquoteRun [] ps
    | _ => utf8DecodeReplace acc ++ '%' :: p ++ unquoteRun [] ps

/-- Model of `urllib.parse.unquote` on a character list. -/
def unquoteChars (s : List Char) : List Char :=
  if s.contains '%' then
    match splitOnChar '%' s with
    | [] => s
    | first :: restParts => first ++ unquoteRun [] restParts
  else s

/-- Model of `urllib.parse.unquote_plus`. -/
def unquotePlus (s : List Char) : List Char :=
  unquoteChars (s.map (fun c => if c = '+' then ' ' else c))

/-- Model of `"v" in parse_qs(query)`: some `&`-separated component has a
key percent-decoding to `v` and a nonempty raw value (blank values are
dropped by `parse_qs`). -/
def hasNonEmptyV (query : List Char) : Bool :=
  (splitOnChar '&' query).any (fun pair =>
    !pair.isEmpty &&
      (match pair.dropWhile (· ≠ '=') with
       | [] => false
       | _ :: v => !v.isEmpty && unquotePlus (pair.takeWhile (· ≠ '=')) == ['v']))

/-! ## YouTube URL Validator (`is_valid_youtube_url`, app.py lines 70-87) -/

/-- `url if "://" in url else f"https://{url}"`. -/
def withHttpsScheme (url : List Char) : List Char :=
  if containsSub "://".data url then url else "https://".data ++ url

/-- The part of `s` after the first occurrence of `pat`
(`s.split(pat, 1)[1]` when `pat` occurs in `s`). -/
def afterFirstSub (pat : List Char) : List Char → List Char
  | [] => []
  | c :: rest =>
    if pat.isPrefixOf (c :: rest) then (c :: rest).drop pat.length
    else afterFirstSub pat rest

/-- Core of `is_valid_youtube_url` on character lists, mirroring the
source's if-chain. -/
def validYoutubeCore (url : List Char) : Bool :=
  if url.isEmpty then false
  else
    let p := pyUrlparse (withHttpsScheme url)
    let host := strReplaceAll (lowerStr p.netloc) "www.".data []
    if host = "youtu.be".data then !(pyStripBoth (· = '/') p.path).isEmpty
    else if host = "youtube.com".data ∨ host = "m.youtube.com".data then
      if p.path = "/watch".data then hasNonEmptyV p.query
      else if "/shorts/".data.isPrefixOf p.path then
        !(afterFirstSub "/shorts/".data p.path).isEmpty
      else false
    else false

/-- `is_valid_youtube_url(url)` from app.py. -/
def is_valid_youtube_url (url : String) : Bool := validYoutubeCore url.data

def isAsciiCodepoint (c : Char) : Bool := c.toNat < 128

/-- The inputs on which CPython's `urlsplit` takes none of its
`ValueError` paths: the netloc it cuts out contains no bracket (the
"Invalid IPv6 URL" and bracketed-host checks need a `[` or `]`) and only
ASCII characters (the NFKC netloc check returns immediately for ASCII
netlocs).  On this domain the total parse model `pyUrlsplit` is exact;
outside it the source can raise instead of returning. -/
def urlsplitSafe (u : List Char) : Bool :=
  let nl := (pyUrlsplit u).netloc
  !nl.contains '[' && !nl.contains ']' && nl.all isAsciiCodepoint

/-- `urlsplitSafe` for the string the YouTube validator actually parses
(after the `https://` default).  `is_valid_youtube_url` wraps `urlparse`
in no try/except, so outside this domain it propagates `ValueError`
rather than returning a verdict. -/
def youtubeParseSafe (url : List Char) : Bool :=
  urlsplitSafe (withHttpsScheme url)

/-! ## Job Runner progress trace (`run_download_job`, app.py lines 210-302)

The external downloader drives the job through a sequence of progress-hook
invocations followed by one terminal outcome.  `int((downloaded/total)*100)`
is modelled as exact `Nat` floor division.
-/

/-- One invocation of the yt-dlp progress hook (app.py lines 238-247).
`downloading` carries `downloaded_bytes` and the already-collapsed
`total_bytes or total_bytes_estimate or 0`. -/
inductive HookEvent where
  | downloading (downloaded total : Nat)
  | finished
  | otherStatus
deriving DecidableEq

/-- The status/progress/error slice of a job record, the fields the
progress invariants talk about. -/
structure JobProgress where
  status : String
  progress : Nat
  error : Option String
deriving DecidableEq

/-- State at job creation: `status="queued"`, `progress=0`. -/
def initialProgress : JobProgress := ⟨"queued", 0, none⟩

/-- The progress-hook body: while downloading with a positive total, write
`max(1, min(int((downloaded/total)*100), 99))`; on the finished signal
write 98; otherwise leave the job untouched. -/
def applyHook (j : JobProgress) : HookEvent → JobProgress
  | .downloading downloaded total =>
    if 0 < total then
      { j with progress := max 1 (min (downloaded * 100 / total) 99) }
    else j
  | .finished => { j with progress := 98 }
  | .otherStatus => j

/-- How `run_download_job` ends: a successful resolution (which also sets
the file fields, not modelled here) or any caught exception. -/
inductive Outcome where
  | success
  | failure (msg : String)
deriving DecidableEq

/-- The terminal update: `status="completed", progress=100` on success,
`status="error", progress=0, error=msg` on failure (app.py lines 287-301,
222, 232). -/
def applyOutcome (j : JobProgress) : Outcome → JobProgress
  | .success => { j with status := "completed", progress := 100 }
  | .failure msg => { j with status := "error", progress := 0, error := some msg }

/-- Every state the Job Store sees for one job: creation state, the state
after each hook write, and the terminal state. -/
def progressTrace (hooks : List HookEvent) (out : Outcome) : List JobProgress :=
  let mids := hooks.scanl applyHook initialProgress
  mids ++ [applyOutcome (mids.getLastD initialProgress) out]

/-! ## Heap model of the job dict (reference semantics)

`jobs.get(job_id)` in `get_progress` (app.py lines 689-690) hands back a
reference to the stored `dict` object, and `update_job` mutates that same
object in place.  The value-level `JobsMap` above cannot express this, so
here the store maps ids to heap addresses and records live on the heap. -/

/-- The Python heap: address-indexed job dicts. -/
abbrev Heap := List JobRecord

/-- Follow a reference. -/
def derefJob (h : Heap) (a : Nat) : Option JobRecord := h[a]?

/-- The `jobs` dict at reference level: ids map to object addresses. -/
abbrev JobsRefMap := List (String × Nat)

/-- `jobs.get(job_id)` under reference semantics: the caller receives the
address of the stored record, not a copy of it. -/
def jobsGetRef (m : JobsRefMap) (jobId : String) : Option Nat :=
  (m.find? (fun kv => kv.1 == jobId)).map (·.2)

/-- `update_job(job_id, **kwargs)` under reference semantics:
`jobs[job_id].update(kwargs)` mutates the record in place at its address. -/
def update_job_heap (m : JobsRefMap) (h : Heap) (jobId : String)
    (kwargs : List (String × PyVal)) : Heap :=
  match jobsGetRef m jobId with
  | some a =>
    match h[a]? with
    | some rec => h.set a (mergeFields rec kwargs)
    | none => h
  | none => h

/-! ## Artifact resolution (`resolve_output_path` lines 194-207 and
`run_download_job` lines 277-285)

The filesystem is a finite list of `(absolute path, mtime)` pairs; files
inside the target directory have paths of the form `dir ++ "/" ++ name`.
`pathlib` path printing is modelled for POSIX paths (no `//`-root corner
case). -/

structure DownloadRec where
  filepath : Option String
deriving DecidableEq

/-- The slice of the yt-dlp `info` result the resolver reads. -/
structure InfoDict where
  requested_downloads : Option (List DownloadRec)
  title : Option String
deriving DecidableEq

abbrev FileSys := List (String × Nat)

/-- `Path.exists()` against the modelled filesystem. -/
def fsExists (fs : FileSys) (p : String) : Bool := fs.any (fun e => e.1 == p)

def joinSlash : List (List Char) → List Char
  | [] => []
  | [x] => x
  | x :: xs => x ++ '/' :: joinSlash xs

/-- `str()` of a parsed POSIX path with the given components (an empty
relative path prints as `.`). -/
def pyPathOfParts (root : Bool) (comps : List (List Char)) : List Char :=
  if root then '/' :: joinSlash comps
  else if comps.isEmpty then ['.']
  else joinSlash comps

/-- Model of `str(Path(p))`: parse and re-print, collapsing repeated and
trailing separators and `.` components. -/
def pyPathNorm (p : List Char) : List Char :=
  pyPathOfParts (p.head? = some '/') (pathComponents p)

/-- Model of `str(Path(dir) / name)`. -/
def pyJoinPath (dir name : List Char) : List Char :=
  pyPathOfParts (dir.head? = some '/') (pathComponents (dir ++ '/' :: name))

/-- Model of `str(Path(p).with_suffix(suf))`: the last component loses its
old suffix (if any) and gains `suf`. -/
def pyWithSuffixCore (p suf : List Char) : List Char :=
  let comps := pathComponents p
  pyPathOfParts (p.head? = some '/') (comps.dropLast ++ [pyStem p ++ suf])

def pyWithSuffix (p suf : String) : String := ⟨pyWithSuffixCore p.data suf.data⟩

/-- The `requested_downloads[0]["filepath"]` branch of
`resolve_output_path`: the path reported by the downloader's result
metadata, with the suffix forced to `.mp3` for audio jobs (`None` when no
truthy path is reported). -/
def reportedArtifactPath (info : InfoDict) (fmt : String) : Option String :=
  match info.requested_downloads.getD [] with
  | [] => none
  | r :: _ =>
    match r.filepath with
    | some fp =>
      if fp = "" then none
      else some (if fmt = "mp3" then pyWithSuffix fp ".mp3" else ⟨pyPathNorm fp.data⟩)
    | none => none

/-- The template fallback of `resolve_output_path`:
`download_dir / f"{safe}.{ext}"` built from the preferred basename /
title / `"download"`. -/
def defaultTemplatePath (info : InfoDict) (fmt : String) (download_dir : String)
    (preferred_base : Option String) : String :=
  let template_base := pyOrStr preferred_base (pyOrStr info.title "download")
  let safe := pyOrStr (sanitize_file_basename (some template_base)) "download"
  let ext := if fmt = "mp3" then "mp3" else "mp4"
  ⟨pyJoinPath download_dir.data (safe.data ++ '.' :: ext.data)⟩

/-- `resolve_output_path(info, fmt, download_dir, preferred_base)` from
app.py: prefer the reported path, else the template path. -/
def resolve_output_path (info : InfoDict) (fmt : String) (download_dir : String)
    (preferred_base : Option String) : String :=
  match reportedArtifactPath info fmt with
  | some p => p
  | none => defaultTemplatePath info fmt download_dir preferred_base

/-- Whether path `p` is matched by `Path(dir).glob(f"{base}.*")`: an entry
of `dir` whose name is `base`, a dot, then anything. -/
def matchesBaseDot (dir base p : List Char) : Bool :=
  (dir ++ ['/']).isPrefixOf p &&
    (let name := p.drop (dir.length + 1)
     !name.contains '/' && (base ++ ['.']).isPrefixOf name)

/-- The glob candidates for the fallback scan. -/
def globBaseDot (fs : FileSys) (dir base : String) : List (String × Nat) :=
  fs.filter (fun e => matchesBaseDot dir.data base.data e.1.data)

def maxMtimeAux (best : String × Nat) : List (String × Nat) → String × Nat
  | [] => best
  | y :: ys => if best.2 < y.2 then maxMtimeAux y ys else maxMtimeAux best ys

/-- `sorted(candidates, key=mtime, reverse=True)[0]`: the first listed
entry among those of maximal mtime (Python's sort is stable). -/
def mostRecentMatch : List (String × Nat) → Option String
  | [] => none
  | x :: xs => some (maxMtimeAux x xs).1

/-- Lines 277-285 of `run_download_job`: resolve the artifact, fall back to
the `f"{safe_name}.*"` glob picking the most recently modified candidate,
and fail with the `FileNotFoundError` message if nothing exists. -/
def finalizeDownloadedFile (info : InfoDict) (fmt : String)
    (target_dir safe_name : String) (fs : FileSys) : Except String String :=
  let final0 := resolve_output_path info fmt target_dir (some safe_name)
  let final1 :=
    if fsExists fs final0 then final0
    else
      match mostRecentMatch (globBaseDot fs target_dir safe_name) with
      | some c => c
      | none => final0
  if fsExists fs final1 then .ok final1
  else .error "Download finished but output file was not found."

/-- `safe_name = sanitize_file_basename(output_name) or job_id`
(app.py lines 235 and 315). -/
def runnerBasename (output_name : Option String) (job_id : String) : String :=
  pyOrStr (sanitize_file_basename output_name) job_id

/-! ## HTTP job-creation endpoint (`start_download`, app.py lines 553-607)

The request body is the JSON object fields the handler reads.  The
environment-dependent `Path(...).expanduser()` call is abstracted as a
function returning `none` when it raises.  `uuid.uuid4().hex` and
`time.time()` enter as parameters. -/

structure DownloadRequest where
  url : Option String
  format : Option String
  quality : Option String
  sound_on : Option PyVal
  output_dir : Option String
  output_name : Option String

/-- `(data.get("url") or "").strip()`. -/
def reqUrl (r : DownloadRequest) : String := pyStripStr (pyOrStr r.url "")

/-- `(data.get("format") or "mp4").strip().lower()`. -/
def reqFmt (r : DownloadRequest) : String :=
  pyLowerStr (pyStripStr (pyOrStr r.format "mp4"))

/-- `(data.get("quality") or "1080p60").strip()`. -/
def reqQuality (r : DownloadRequest) : String :=
  pyStripStr (pyOrStr r.quality "1080p60")

/-- `bool(data.get("sound_on", True))`. -/
def reqSound (r : DownloadRequest) : Bool :=
  pyTruthy (r.sound_on.getD (.pybool true))

/-- `(data.get("output_dir") or "").strip()`. -/
def reqOutDir (r : DownloadRequest) : String := pyStripStr (pyOrStr r.output_dir "")

/-- `(data.get("output_name") or "").strip()`. -/
def reqOutName (r : DownloadRequest) : String :=
  pyStripStr (pyOrStr r.output_name "")

inductive HttpResult where
  | ok (jobId : String)
  | clientError (code : Nat) (msg : String)
deriving DecidableEq

/-- `create_job()` (app.py lines 630-642): insert the initial record under
a fresh id. -/
def create_job (newJobId : String) (now : ℚ) (jobs : JobsMap) : String × JobsMap :=
  (newJobId, insertJob jobs newJobId (initialJobRecord now))

/-- The `/download` handler `start_download` up to spawning the worker
thread: validation in source order, then job creation.  `expandUser`
models `str(Path(raw).expanduser())`, with `none` for the exception
branch. -/
def start_download (expandUser : String → Option String) (newJobId : String)
    (now : ℚ) (req : DownloadRequest) (jobs : JobsMap) : HttpResult × JobsMap :=
  let url := reqUrl req
  let fmt := reqFmt req
  let quality := reqQuality req
  let sound_on := reqSound req
  if ¬ is_valid_youtube_url url then
    (.clientError 400 "Invalid YouTube URL.", jobs)
  else if ¬ (fmt = "mp4" ∨ fmt = "mp3") then
    (.clientError 400 "Format must be mp4 or mp3.", jobs)
  else if ¬ (quality = "360p" ∨ quality = "720p" ∨ quality = "1080p60") then
    (.clientError 400 "Quality must be 360p, 720p, or 1080p60.", jobs)
  else if fmt = "mp3" ∧ ¬ sound_on then
    (.clientError 400 "Sound Off is not valid for MP3 downloads.", jobs)
  else if reqOutDir req ≠ "" ∧ (expandUser (reqOutDir req)).isNone then
    (.clientError 400 "Invalid output folder path.", jobs)
  else if reqOutName req ≠ "" ∧
      (sanitize_file_basename (some (reqOutName req))).isNone then
    (.clientError 400 "Invalid output file name.", jobs)
  else
    (.ok newJobId, (create_job newJobId now jobs).2)

/-! ## Metrics analysis (`analyze_metrics`, app.py lines 371-484)

Floats are exact rationals; each Python division is guarded in the source
and threaded through `Option` here, so a `some` result is exactly the
"returns without raising" claim. -/

def takeDigits (s : List Char) : List Char × List Char :=
  (s.takeWhile isAsciiDigit, s.dropWhile isAsciiDigit)

def digitsToNat (ds : List Char) : Nat :=
  ds.foldl (fun acc c => acc * 10 + (c.toNat - '0'.toNat)) 0

/-- Model of `float(text)` for finite decimal/exponent literals: optional
sign, integer and/or fractional digits, optional exponent.  Non-finite
literals (`inf`, `nan`) and digit-group underscores lie outside the
rational model and parse as failures. -/
def pyFloatParse (s0 : List Char) : Option ℚ :=
  let s := pyStripWS s0
  let signRest : ℚ × List Char :=
    match s with
    | '+' :: r => (1, r)
    | '-' :: r => (-1, r)
    | r => (1, r)
  let ipRest := takeDigits signRest.2
  let fpRest : Option (List Char) × List Char :=
    match ipRest.2 with
    | '.' :: r => let dr := takeDigits r; (some dr.1, dr.2)
    | r => (none, r)
  if ipRest.1 = [] ∧ (fpRest.1 = none ∨ fpRest.1 = some []) then none
  else
    let mant : ℚ := (digitsToNat ipRest.1 : ℚ) +
      (match fpRest.1 with
       | some d => (digitsToNat d : ℚ) / ((10 : ℚ) ^ d.length)
       | none => 0)
    match fpRest.2 with
    | [] => some (signRest.1 * mant)
    | e :: r3 =>
      if e = 'e' ∨ e = 'E' then
        let esignRest : Int × List Char :=
          match r3 with
          | '+' :: r => (1, r)
          | '-' :: r => (-1, r)
          | r => (1, r)
        let edRest := takeDigits esignRest.2
        if edRest.1 = [] ∨ edRest.2 ≠ [] then none
        else
          some (signRest.1 * mant *
            (10 : ℚ) ^ (esignRest.1 * (digitsToNat edRest.1 : Int)))
      else none

/-- `safe_float(value)` (app.py lines 110-121): `None`/empty string go to
`None`, numbers (and bools) pass through, strings are stripped of
whitespace, commas, percent and dollar signs and parsed; anything else
fails to parse. -/
def safe_float : PyVal → Option ℚ
  | .pynone => none
  | .pybool b => some (if b then 1 else 0)
  | .pynum q => some q
  | .pystr s =>
    if s = "" then none
    else
      pyFloatParse (((pyStripWS s.data).filter (· ≠ ',')).filter (· ≠ '%')
        |>.filter (· ≠ '$'))
  | .pyobj _ => none

/-- `score_higher_better` (app.py lines 124-131). -/
def score_higher_better (value : Option ℚ) (good ok : ℚ) : Option Nat :=
  match value with
  | none => none
  | some v => some (if good ≤ v then 95 else if ok ≤ v then 75 else 45)

/-- `score_lower_better` (app.py lines 134-141). -/
def score_lower_better (value : Option ℚ) (good ok : ℚ) : Option Nat :=
  match value with
  | none => none
  | some v => some (if v ≤ good then 95 else if v ≤ ok then 75 else 45)

structure MetricEntry where
  name : String
  value : Option ℚ
  score : Option Nat
  rating : String
deriving DecidableEq

/-- One `add_metric(name, value, score, low_tip, high_tip)` call. -/
structure MetricSpec where
  name : String
  value : Option ℚ
  score : Option Nat
  lowTip : String
  highTip : Option String

/-- The body of the nested `add_metric` helper (app.py lines 413-422),
appending to the `results` and `tips` accumulators. -/
def addMetric (st : List MetricEntry × List String) (sp : MetricSpec) :
    List MetricEntry × List String :=
  match sp.score with
  | none => (st.1 ++ [⟨sp.name, sp.value, none, "No data"⟩], st.2)
  | some score =>
    let rating :=
      if 90 ≤ score then "Excellent" else if 70 ≤ score then "Good"
      else "Needs Work"
    let entries := st.1 ++ [⟨sp.name, sp.value, some score, rating⟩]
    if score < 70 then (entries, st.2 ++ [sp.lowTip])
    else
      match sp.highTip with
      | some t => (entries, st.2 ++ [t])
      | none => (entries, st.2)

structure AnalysisResult where
  overall_score : Nat
  verdict : String
  metrics : List MetricEntry
  tips : List String
  notes : List String
deriving DecidableEq

/-- Python float division; `none` is the `ZeroDivisionError` case. -/
def pyDivQ (a b : ℚ) : Option ℚ := if b = 0 then none else some (a / b)

/-- The derived engagement rate (app.py lines 398-400): computed from
likes/comments/shares when views is truthy-positive and no explicit rate
was supplied. -/
def computeEngagementRate (views er likes comments shares : Option ℚ) :
    Option (Option ℚ) :=
  match views, er with
  | some v, none =>
    if v ≠ 0 ∧ 0 < v then
      (pyDivQ ((likes.getD 0) + (comments.getD 0) + (shares.getD 0)) v).map
        (fun r => some (r * 100))
    else some none
  | _, er' => some er'

/-- The derived sub-to-view ratio (app.py lines 402-403). -/
def computeSubToView (views sv subs_gained : Option ℚ) : Option (Option ℚ) :=
  match views, sv with
  | some v, none =>
    if v ≠ 0 ∧ 0 < v then
      (pyDivQ (subs_gained.getD 0) v).map (fun r => some (r * 100))
    else some none
  | _, sv' => some sv'

/-- The derived APV (app.py lines 405-408): `avd/duration*100` when only
AVD was supplied and a positive duration is available. -/
def computeApv (apv avd duration : Option ℚ) : Option (Option ℚ) :=
  match apv, avd with
  | none, some a =>
    match duration with
    | some d =>
      if d ≠ 0 ∧ 0 < d then (pyDivQ a d).map (fun r => some (r * 100))
      else some none
    | none => some none
  | apv', _ => some apv'

/-- The conditional View/Impression metric (app.py lines 444-451). -/
def impressionSpec (views impressions : Option ℚ) : Option (List MetricSpec) :=
  match views, impressions with
  | some v, some imp =>
    if 0 < imp then
      (pyDivQ v imp).map (fun r =>
        [⟨"View/Impression Ratio (%)", some (r * 100),
          score_higher_better (some (r * 100)) 6 3,
          "Low views from impressions: test new packaging (title/thumbnail) and improve hook delivery.",
          none⟩])
    else some []
  | _, _ => some []

/-- The conditional Like Ratio metric (app.py lines 453-460). -/
def likeRatioSpec (likes dislikes : Option ℚ) : Option (List MetricSpec) :=
  match likes, dislikes with
  | some l, some d =>
    if 0 < l + d then
      (pyDivQ l (l + d)).map (fun r =>
        [⟨"Like Ratio (%)", some (r * 100),
          score_higher_better (some (r * 100)) 95 85,
          "Low like ratio: clarify expectations in title and deliver on promise sooner.",
          none⟩])
    else some []
  | _, _ => some []

/-- The pure tail of `analyze_metrics` (app.py lines 410-484): fold the
`add_metric` calls, average the present scores, pick verdict and tips. -/
def assembleAnalysis (specs : List MetricSpec) : AnalysisResult :=
  let st := specs.foldl addMetric ([], [])
  let results := st.1
  let numeric_scores := results.filterMap (fun r => r.score)
  let overall_score : Nat :=
    if numeric_scores.isEmpty then 0
    else numeric_scores.sum / numeric_scores.length
  let verdict :=
    if 85 ≤ overall_score then "Strong performance"
    else if 70 ≤ overall_score then "Healthy, but with optimization room"
    else "Underperforming"
  let tips :=
    if st.2.isEmpty then
      ["Metrics look healthy. Keep testing titles, thumbnails, and first-30-second hooks."]
    else st.2
  ⟨overall_score, verdict, results, tips.take 12,
    ["Most advanced metrics (CTR, AVD, APV, retention, revenue, RPM/CPM) are YouTube Studio analytics inputs.",
     "Public fetch can auto-fill only limited fields like views/likes/comments/title/duration."]⟩

/-- The nineteen unconditional `add_metric` calls of `analyze_metrics`
(app.py lines 424-442), in source order. -/
def baseMetricSpecs (ctr avd apv engagement_rate audience_retention
    relative_retention sub_to_view_ratio end_screen_ctr shares comments
    subs_gained subs_lost returning_viewers new_viewers card_clicks rpm cpm
    playback_cpm estimated_revenue : Option ℚ) : List MetricSpec := [
  ⟨"CTR", ctr, score_higher_better ctr 6 3.5,
    "Low CTR: test 2-3 stronger title/thumbnail combinations with clearer promise.", none⟩,
  ⟨"AVD (sec)", avd, score_higher_better avd 240 90,
    "Low AVD: tighten first 30 seconds and remove slow segments.", none⟩,
  ⟨"APV (%)", apv, score_higher_better apv 45 30,
    "Low APV: improve pacing and set up stronger open loops.", none⟩,
  ⟨"Engagement Rate (%)", engagement_rate,
    score_higher_better engagement_rate 4 2,
    "Low engagement: ask a specific comment question and add a stronger CTA.", none⟩,
  ⟨"Audience Retention (%)", audience_retention,
    score_higher_better audience_retention 45 30,
    "Low retention: inspect drop-off timestamps and trim weak sections.", none⟩,
  ⟨"Relative Retention (%)", relative_retention,
    score_higher_better relative_retention 100 80,
    "Relative retention is below peers: tighten storytelling and add pattern interrupts.", none⟩,
  ⟨"Sub-to-View Ratio (%)", sub_to_view_ratio,
    score_higher_better sub_to_view_ratio 1 0.3,
    "Low subscriber conversion: explicitly state why viewers should subscribe.", none⟩,
  ⟨"End Screen CTR (%)", end_screen_ctr,
    score_higher_better end_screen_ctr 1 0.5,
    "Low end-screen CTR: simplify to one clear next-video recommendation.", none⟩,
  ⟨"Shares", shares, score_higher_better shares 50 10,
    "Low shares: add practical takeaways people can send to others.", none⟩,
  ⟨"Comments", comments, score_higher_better comments 25 5,
    "Low comments: pin a polarizing or specific question.", none⟩,
  ⟨"Subscribers Gained", subs_gained, score_higher_better subs_gained 20 5,
    "Few subscribers gained: clarify channel value proposition in intro and outro.", none⟩,
  ⟨"Subscribers Lost", subs_lost, score_lower_better subs_lost 5 20,
    "High subscriber loss: align content topic with audience expectations.", none⟩,
  ⟨"Returning Viewers", returning_viewers,
    score_higher_better returning_viewers 1000 200,
    "Low returning viewers: publish consistent series and recurring formats.", none⟩,
  ⟨"New Viewers", new_viewers, score_higher_better new_viewers 1000 200,
    "Low new viewers: improve search intent alignment and topic selection.", none⟩,
  ⟨"Card Teaser Clicks", card_clicks, score_higher_better card_clicks 30 8,
    "Low card clicks: place cards at high-retention moments.", none⟩,
  ⟨"RPM", rpm, score_higher_better rpm 4 1.5,
    "Low RPM: target higher-intent topics and optimize audience geography.", none⟩,
  ⟨"CPM", cpm, score_higher_better cpm 8 3,
    "Low CPM: adjust content niche toward stronger advertiser demand.", none⟩,
  ⟨"Playback-based CPM", playback_cpm, score_higher_better playback_cpm 8 3,
    "Low playback CPM: improve ad-friendly pacing and topic fit.", none⟩,
  ⟨"Estimated Revenue", estimated_revenue,
    score_higher_better estimated_revenue 100 20,
    "Low revenue: focus on videos with stronger retention and ad suitability.", none⟩]

/-- `analyze_metrics(metrics)` from app.py.  The metrics object is an
arbitrary mapping from field names to values (absent keys read as
`None`). -/
def analyze_metrics (m : String → PyVal) : Option AnalysisResult := do
  let views := safe_float (m "views")
  let likes := safe_float (m "likes")
  let dislikes := safe_float (m "dislikes")
  let ctr := safe_float (m "ctr")
  let avd := safe_float (m "avd")
  let apv0 := safe_float (m "apv")
  let impressions := safe_float (m "impressions")
  let watch_time := safe_float (m "watch_time")
  let shares := safe_float (m "shares")
  let comments := safe_float (m "comments")
  let subs_gained := safe_float (m "subs_gained")
  let subs_lost := safe_float (m "subs_lost")
  let returning_viewers := safe_float (m "returning_viewers")
  let new_viewers := safe_float (m "new_viewers")
  let end_screen_ctr := safe_float (m "end_screen_ctr")
  let card_clicks := safe_float (m "card_teaser_clicks")
  let rpm := safe_float (m "rpm")
  let cpm := safe_float (m "cpm")
  let playback_cpm := safe_float (m "playback_cpm")
  let estimated_revenue := safe_float (m "estimated_revenue")
  let audience_retention := safe_float (m "audience_retention")
  let relative_retention := safe_float (m "relative_retention")
  let sub_to_view_ratio0 := safe_float (m "sub_to_view_ratio")
  let engagement_rate0 := safe_float (m "engagement_rate")
  let _unique_viewers := safe_float (m "unique_viewers")
  let _watch_time := watch_time
  let engagement_rate ← computeEngagementRate views engagement_rate0 likes
    comments shares
  let sub_to_view_ratio ← computeSubToView views sub_to_view_ratio0 subs_gained
  let apv ← computeApv apv0 avd (safe_float (m "duration_seconds"))
  let baseSpecs : List MetricSpec := baseMetricSpecs ctr avd apv engagement_rate
    audience_retention relative_retention sub_to_view_ratio end_screen_ctr
    shares comments subs_gained subs_lost returning_viewers new_viewers
    card_clicks rpm cpm playback_cpm estimated_revenue
  let impSpecs : List MetricSpec ← impressionSpec views impressions
  let likeSpecs : List MetricSpec ← likeRatioSpec likes dislikes
  pure (assembleAnalysis (baseSpecs ++ impSpecs ++ likeSpecs))

/-! ## Social-platform validators and endpoints
(app.py lines 89-107, 610-684) -/

/-- `is_valid_tiktok_url(url)` from app.py. -/
def is_valid_tiktok_url (url : String) : Bool :=
  if url.data.isEmpty then false
  else
    let p := pyUrlparse (withHttpsScheme url.data)
    let host := strReplaceAll (lowerStr p.netloc) "www.".data []
    if host = "tiktok.com".data ∨ host = "m.tiktok.com".data ∨
        host = "vm.tiktok.com".data ∨ host = "vt.tiktok.com".data then
      !(pyStripBoth (· = '/') p.path).isEmpty
    else false

/-- `is_valid_instagram_url(url)` from app.py. -/
def is_valid_instagram_url (url : String) : Bool :=
  if url.data.isEmpty then false
  else
    let p := pyUrlparse (withHttpsScheme url.data)
    let host := strReplaceAll (lowerStr p.netloc) "www.".data []
    if host = "instagram.com".data ∨ host = "m.instagram.com".data then
      "/reel/".data.isPrefixOf p.path || "/p/".data.isPrefixOf p.path ||
        "/tv/".data.isPrefixOf p.path
    else false

/-- `parse_output_settings(data)` (app.py lines 610-627): returns
`(output_dir, output_name, error)`; modelled as `Except` on the error
message. -/
def parse_output_settings (expandUser : String → Option String)
    (req : DownloadRequest) : Except String (Option String × Option String) :=
  let output_dir_raw := reqOutDir req
  let output_name_raw := reqOutName req
  match (if output_dir_raw = "" then some none
         else (expandUser output_dir_raw).map some : Option (Option String)) with
  | none => .error "Invalid output folder path."
  | some output_dir =>
    match (if output_name_raw = "" then some none
           else (sanitize_file_basename (some output_name_raw)).map some :
        Option (Option String)) with
    | none => .error "Invalid output file name."
    | some output_name => .ok (output_dir, output_name)

/-- The shared shape of `download_tiktok` / `download_instagram`
(app.py lines 645-684): platform URL check, output settings, then
`create_job` and thread spawn. -/
def download_social (validUrl : String → Bool) (invalidMsg : String)
    (expandUser : String → Option String) (newJobId : String) (now : ℚ)
    (req : DownloadRequest) (jobs : JobsMap) : HttpResult × JobsMap :=
  if ¬ validUrl (reqUrl req) then (.clientError 400 invalidMsg, jobs)
  else
    match parse_output_settings expandUser req with
    | .error msg => (.clientError 400 msg, jobs)
    | .ok _ => (.ok newJobId, (create_job newJobId now jobs).2)

/-! ## Claim-side definitions

These formalise claim sentences as written, to be compared with the
definitions translated from the source. -/

/-- Host normalisation as claim C5 words it: strip one leading `www.`
(and only a leading one). -/
def hostStripOneWww (h : List Char) : List Char :=
  if "www.".data.isPrefixOf h then h.drop 4 else h

/-- Claim C5's acceptance condition as stated: short-link host with
non-empty path, or canonical host with `/watch` and a non-empty `v`
parameter or `/shorts/<id>`; scheme-insensitive with `https://` default;
`www.` stripped only as a host prefix. -/
def youtubeClaimAccept (url : String) : Bool :=
  !url.data.isEmpty &&
    (let p := pyUrlparse (withHttpsScheme url.data)
     let host := hostStripOneWww (lowerStr p.netloc)
     (host == "youtu.be".data && !(pyStripBoth (· = '/') p.path).isEmpty) ||
     ((host == "youtube.com".data || host == "m.youtube.com".data) &&
        p.path == "/watch".data && hasNonEmptyV p.query) ||
     ((host == "youtube.com".data || host == "m.youtube.com".data) &&
        "/shorts/".data.isPrefixOf p.path &&
        !(afterFirstSub "/shorts/".data p.path).isEmpty))

/-- The amended C5 acceptance condition: as the claim, except that every
occurrence of `www.` is removed from the host, not only a leading one. -/
def youtubeAmendedAccept (url : String) : Bool :=
  !url.data.isEmpty &&
    (let p := pyUrlparse (withHttpsScheme url.data)
     let host := strReplaceAll (lowerStr p.netloc) "www.".data []
     (host == "youtu.be".data && !(pyStripBoth (· = '/') p.path).isEmpty) ||
     ((host == "youtube.com".data || host == "m.youtube.com".data) &&
        p.path == "/watch".data && hasNonEmptyV p.query) ||
     ((host == "youtube.com".data || host == "m.youtube.com".data) &&
        "/shorts/".data.isPrefixOf p.path &&
        !(afterFirstSub "/shorts/".data p.path).isEmpty))

/-- Whether `p` is an entry of `dir` whose name merely starts with `base`
— the scan condition as claim C7 words it (no dot required after the
basename). -/
def matchesBaseAny (dir base p : List Char) : Bool :=
  (dir ++ ['/']).isPrefixOf p &&
    (let name := p.drop (dir.length + 1)
     !name.contains '/' && base.isPrefixOf name)

/-- Artifact resolution as claim C7 states it: a reported path is used;
when none is reported or the resolved path does not exist, the directory
is scanned for files whose name starts with the expected basename and the
most recently modified match is chosen; otherwise the not-found error. -/
def claimResolveArtifact (info : InfoDict) (fmt : String)
    (target_dir safe_name : String) (fs : FileSys) : Except String String :=
  let scan := mostRecentMatch
    (fs.filter (fun e => matchesBaseAny target_dir.data safe_name.data e.1.data))
  match reportedArtifactPath info fmt with
  | some p =>
    if fsExists fs p then .ok p
    else
      match scan with
      | some c => .ok c
      | none => .error "Download finished but output file was not found."
  | none =>
    match scan with
    | some c => .ok c
    | none => .error "Download finished but output file was not found."

/-- Artifact resolution as amended: the candidate is the reported path
(suffix-overridden for audio) when one is reported, else the default
template path `dir/base.ext`; if the candidate does not exist on disk the
directory is scanned for files whose name is the basename followed by a
dot, the most recently modified match winning; only if that scan is empty
does the job fail with the not-found error. -/
def amendedResolveArtifact (info : InfoDict) (fmt : String)
    (target_dir safe_name : String) (fs : FileSys) : Except String String :=
  let candidate :=
    match reportedArtifactPath info fmt with
    | some p => p
    | none => defaultTemplatePath info fmt target_dir (some safe_name)
  if fsExists fs candidate then .ok candidate
  else
    match mostRecentMatch (globBaseDot fs target_dir safe_name) with
    | some c => .ok c
    | none => .error "Download finished but output file was not found."

/-- The request-validation failure condition of `start_download`, one
disjunct per check in the claim's list: invalid URL, format, quality,
sound/format combination, output path, output name. -/
def requestInvalid (expandUser : String → Option String)
    (req : DownloadRequest) : Prop :=
  is_valid_youtube_url (reqUrl req) = false ∨
  (reqFmt req ≠ "mp4" ∧ reqFmt req ≠ "mp3") ∨
  (reqQuality req ≠ "360p" ∧ reqQuality req ≠ "720p" ∧
    reqQuality req ≠ "1080p60") ∨
  (reqFmt req = "mp3" ∧ reqSound req = false) ∨
  (reqOutDir req ≠ "" ∧ expandUser (reqOutDir req) = none) ∨
  (reqOutName req ≠ "" ∧ sanitize_file_basename (some (reqOutName req)) = none)

/-! ## Supporting lemmas -/

theorem applyHook_progress_le (j : JobProgress) (e : HookEvent)
    (h : j.progress ≤ 99) : (applyHook j e).progress ≤ 99 := by
  cases e with
  | downloading downloaded total =>
    by_cases ht : 0 < total
    · simp only [applyHook, if_pos ht]
      exact max_le (by norm_num) (min_le_right _ _)
    · simpa [applyHook, ht] using h
  | finished => simp [applyHook]
  | otherStatus => simpa [applyHook] using h

theorem applyHook_status (j : JobProgress) (e : HookEvent) :
    (applyHook j e).status = j.status := by
  cases e with
  | downloading downloaded total =>
    by_cases ht : 0 < total <;> simp [applyHook, ht]
  | finished => simp [applyHook]
  | otherStatus => simp [applyHook]

theorem mem_scanl_induct {α β : Type} (f : β → α → β) (P : β → Prop)
    (hstep : ∀ b a, P b → P (f b a)) :
    ∀ (l : List α) (b : β), P b → ∀ s ∈ l.scanl f b, P s := by
  intro l
  induction l with
  | nil =>
    intro b hb s hs
    simp [List.scanl] at hs
    exact hs ▸ hb
  | cons a l ih =>
    intro b hb s hs
    rw [List.scanl_cons] at hs
    rcases List.mem_append.mp hs with h | h
    · simp at h
      exact h ▸ hb
    · exact ih (f b a) (hstep b a hb) s h

theorem getField_cons (kv : String × PyVal) (rest : JobRecord) (k : String) :
    getField (kv :: rest) k = if kv.1 = k then some kv.2 else getField rest k := by
  by_cases h : kv.1 = k
  · simp [getField, List.find?_cons, h]
  · simp [getField, List.find?_cons, h]

theorem scanl_ne_nil {α β : Type} (f : β → α → β) (b : β) (l : List α) :
    l.scanl f b ≠ [] := by
  cases l <;> simp [List.scanl]

theorem getField_setField (r : JobRecord) (k' : String) (v : PyVal) (k : String) :
    getField (setField r k' v) k =
      if k' = k then some v else getField r k := by
  induction r with
  | nil =>
    by_cases h : k' = k <;> simp [setField, getField, List.find?, h]
  | cons kv rest ih =>
    by_cases hk : kv.1 = k'
    · simp only [setField, if_pos hk]
      rw [getField_cons, getField_cons]
      by_cases hkk : k' = k
      · simp [hkk]
      · simp only [if_neg hkk]
        rw [if_neg (hk ▸ hkk)]
    · simp only [setField, if_neg hk]
      rw [getField_cons, ih, getField_cons]
      by_cases hfst : kv.1 = k
      · rw [if_pos hfst, if_neg (fun hkkk => hk (hfst.trans hkkk.symm)), if_pos hfst]
      · by_cases hkk : k' = k <;> simp [hfst, hkk]

theorem setField_isSome (r : JobRecord) (k' : String) (v : PyVal) (k : String)
    (h : (getField r k).isSome) : (getField (setField r k' v) k).isSome := by
  rw [getField_setField]
  by_cases hkk : k' = k
  · simp [hkk]
  · simpa [hkk] using h

theorem mergeFields_isSome (kwargs : List (String × PyVal)) :
    ∀ (r : JobRecord) (k : String), (getField r k).isSome →
      (getField (mergeFields r kwargs) k).isSome := by
  induction kwargs with
  | nil => intro r k h; simpa [mergeFields] using h
  | cons kv rest ih =>
    intro r k h
    simp only [mergeFields, List.foldl_cons]
    exact ih _ k (setField_isSome r kv.1 kv.2 k h)

theorem foldl_mergeFields_isSome (updates : List (List (String × PyVal))) :
    ∀ (r : JobRecord) (k : String), (getField r k).isSome →
      (getField (updates.foldl mergeFields r) k).isSome := by
  induction updates with
  | nil => intro r k h; simpa using h
  | cons u rest ih =>
    intro r k h
    simp only [List.foldl_cons]
    exact ih _ k (mergeFields_isSome u r k h)

/-! ## Claim C1 -/

/-- C1 counterexample: with the downloader reporting 99 of 100 bytes and
then the end-of-transfer signal, the stored progress sequence is
`[0, 99, 98, 100]`, which is not non-decreasing — progress drops from 99
to 98 before the job reaches its terminal state.  This refutes the
non-decreasing part of C1. -/
theorem C1_counterexample :
    ((progressTrace [HookEvent.downloading 99 100, HookEvent.finished]
        Outcome.success).map (fun s => s.progress) = [0, 99, 98, 100]) ∧
    ¬ List.Chain' (· ≤ ·)
      ((progressTrace [HookEvent.downloading 99 100, HookEvent.finished]
        Outcome.success).map (fun s => s.progress)) := by
  have heq : (progressTrace [HookEvent.downloading 99 100, HookEvent.finished]
      Outcome.success).map (fun s => s.progress) = [0, 99, 98, 100] := by decide
  refine ⟨heq, ?_⟩
  rw [heq]
  intro h
  rcases List.chain'_cons.mp (List.chain'_cons.mp h).2 with ⟨h99, -⟩
  omega

/-- C1 (amended): across every job trace — creation, any sequence of
progress-hook writes, then one terminal transition — the stored progress
is an integer in `[0, 100]`, equals 100 only in the `completed` state,
and is 0 in the `error` state.  (Non-decreasing does not hold: the
end-of-transfer signal writes 98 even after a 99% update, hook writes
follow the external tool's byte counts, and the error transition resets
progress to 0.) -/
theorem C1_progress_invariant :
    ∀ (hooks : List HookEvent) (out : Outcome) (s : JobProgress),
      s ∈ progressTrace hooks out →
      s.progress ≤ 100 ∧ (s.progress = 100 → s.status = "completed") ∧
      (s.status = "error" → s.progress = 0) := by
  intro hooks out s hs
  have hmid : ∀ t ∈ hooks.scanl applyHook initialProgress,
      t.progress ≤ 99 ∧ t.status = "queued" := by
    refine mem_scanl_induct applyHook
      (fun t => t.progress ≤ 99 ∧ t.status = "queued") ?_ hooks initialProgress
      ⟨by simp [initialProgress], rfl⟩
    intro b a hb
    exact ⟨applyHook_progress_le b a hb.1, (applyHook_status b a).trans hb.2⟩
  rcases List.mem_append.mp hs with h | h
  · rcases hmid s h with ⟨hle, hst⟩
    refine ⟨le_trans hle (by omega), fun h100 => ?_, fun herr => ?_⟩
    · omega
    · rw [hst] at herr
      exact absurd herr (by decide)
  · simp only [List.mem_singleton] at h
    subst h
    cases out with
    | success =>
      refine ⟨le_refl _, fun _ => rfl, fun herr => ?_⟩
      exact absurd herr (by simp [applyOutcome])
    | failure msg =>
      exact ⟨by simp [applyOutcome], by simp [applyOutcome], fun _ => rfl⟩

/-- Witness for `C1_progress_invariant` at a concrete trace and state. -/
theorem C1_progress_invariant_witness :
    (⟨"completed", 100, none⟩ : JobProgress) ∈
      progressTrace [HookEvent.downloading 50 100] Outcome.success ∧
    (100 ≤ 100 ∧ ((100 : Nat) = 100 → "completed" = "completed") ∧
      ("completed" = "error" → (100 : Nat) = 0)) :=
  ⟨by decide, C1_progress_invariant [HookEvent.downloading 50 100]
    Outcome.success ⟨"completed", 100, none⟩ (by decide)⟩

/-! ## Claim C2 -/

/-- C2 counterexample: the Format Policy function itself does not reject
`(mp3, *, false)` — `get_format_selector("mp3", "720p", False)` returns
the non-empty expression `"bestaudio/best"` instead of signalling an
error. -/
theorem C2_counterexample :
    get_format_selector "mp3" "720p" false = Except.ok "bestaudio/best" ∧
    ∀ e, get_format_selector "mp3" "720p" false ≠ Except.error e := by
  have h : get_format_selector "mp3" "720p" false =
      Except.ok "bestaudio/best" := by decide
  exact ⟨h, fun e he => by rw [h] at he; exact Except.noConfusion he⟩

/-- C2 (amended): for every `(format, quality, sound_on)` triple with
format in {mp4, mp3} and quality in {360p, 720p, 1080p60} — including
`(mp3, *, false)` — the Format Policy returns a non-empty selection
expression; the rejection of `(mp3, *, false)` is enforced separately by
the download endpoint, which answers 400 before any selector is
computed. -/
theorem C2_format_policy :
    (∀ (fmt quality : String) (sound_on : Bool),
      (fmt = "mp4" ∨ fmt = "mp3") →
      (quality = "360p" ∨ quality = "720p" ∨ quality = "1080p60") →
      ∃ s, get_format_selector fmt quality sound_on = Except.ok s ∧ s ≠ "") ∧
    (∀ (expandUser : String → Option String) (newJobId : String) (now : ℚ)
      (req : DownloadRequest) (jobs : JobsMap),
      is_valid_youtube_url (reqUrl req) = true →
      reqFmt req = "mp3" →
      (reqQuality req = "360p" ∨ reqQuality req = "720p" ∨
        reqQuality req = "1080p60") →
      reqSound req = false →
      start_download expandUser newJobId now req jobs =
        (HttpResult.clientError 400 "Sound Off is not valid for MP3 downloads.",
          jobs)) := by
  constructor
  · intro fmt quality sound_on hf hq
    rcases hf with rfl | rfl <;> rcases hq with rfl | rfl | rfl <;>
      cases sound_on <;> exact ⟨_, rfl, by decide⟩
  · intro expandUser newJobId now req jobs hu hf hq hs
    rcases hq with h | h | h <;>
      simp [start_download, hu, hf, hs, h]

/-- Witness for `C2_format_policy` at concrete inputs. -/
theorem C2_format_policy_witness :
    (∃ s, get_format_selector "mp3" "360p" false = Except.ok s ∧ s ≠ "") ∧
    start_download (fun _ => none) "j1" 0
      ⟨some "https://youtu.be/abc", some "mp3", none, some (.pybool false),
        none, none⟩ [] =
      (HttpResult.clientError 400 "Sound Off is not valid for MP3 downloads.",
        []) :=
  ⟨C2_format_policy.1 "mp3" "360p" false (Or.inr rfl) (Or.inl rfl),
   C2_format_policy.2 (fun _ => none) "j1" 0 _ [] (by decide) (by decide)
     (Or.inr (Or.inr (by decide))) (by decide)⟩

/-! ## Claim C3 -/

/-- C3 counterexample: `jobs.get(job_id)` hands out the address of the
live record; a store update performed after the read changes what the
holder of that reference observes, contradicting the point-in-time-copy
claim. -/
theorem C3_counterexample :
    jobsGetRef [("job1", 0)] "job1" = some 0 ∧
    derefJob (update_job_heap [("job1", 0)] [initialJobRecord 0] "job1"
        [("status", .pystr "error")]) 0 ≠
      derefJob [initialJobRecord 0] 0 := by
  exact ⟨by decide, by decide⟩

/-- C3 (amended): the Job Store read returns a live reference to the
stored record, not a copy: whatever address `jobs.get(job_id)` returned,
a later `update_job` on the same id is observed through that address as
the field-merged record.  (Current callers only read through the
reference, but the store's own update is visible to them.) -/
theorem C3_alias_semantics :
    ∀ (store : JobsRefMap) (h : Heap) (jobId : String) (a : Nat)
      (kwargs : List (String × PyVal)),
      jobsGetRef store jobId = some a →
      derefJob (update_job_heap store h jobId kwargs) a =
        (derefJob h a).map (fun rec => mergeFields rec kwargs) := by
  intro store h jobId a kwargs hget
  unfold update_job_heap
  rw [hget]
  cases hd : h[a]? with
  | none => simp [derefJob, hd]
  | some rec =>
    have hlt : a < h.length := by
      have := List.getElem?_eq_some_iff.mp hd
      exact this.1
    simp [derefJob, hd, List.getElem?_set, hlt]

/-- Witness for `C3_alias_semantics` at a concrete store and heap. -/
theorem C3_alias_semantics_witness :
    jobsGetRef [("job1", 0)] "job1" = some 0 ∧
    derefJob (update_job_heap [("job1", 0)] [initialJobRecord 0] "job1"
        [("progress", .pynum 42)]) 0 =
      (derefJob [initialJobRecord 0] 0).map
        (fun rec => mergeFields rec [("progress", .pynum 42)]) :=
  ⟨by decide, C3_alias_semantics [("job1", 0)] [initialJobRecord 0] "job1" 0
    [("progress", .pynum 42)] (by decide)⟩

/-! ## Claim C4 -/

/-- C4: a job-creation request failing any validation check receives a
synchronous 400 with a non-empty error message, and the job map is
returned exactly as it was — no job is created. -/
theorem C4_validation_no_job :
    ∀ (expandUser : String → Option String) (newJobId : String) (now : ℚ)
      (req : DownloadRequest) (jobs : JobsMap),
      requestInvalid expandUser req →
      ∃ msg,
        start_download expandUser newJobId now req jobs =
          (HttpResult.clientError 400 msg, jobs) ∧ msg ≠ "" := by
  intro expandUser newJobId now req jobs hinv
  simp only [start_download]
  split_ifs with h1 h2 h3 h4 h5 h6
  all_goals try exact ⟨_, rfl, by decide⟩
  exfalso
  rcases hinv with h | h | h | h | h | h
  · rw [h] at h1
    exact absurd h1 (by simp)
  · exact h2.elim h.1 h.2
  · exact h3.elim h.1 (fun hc => hc.elim h.2.1 h.2.2)
  · exact h4 ⟨h.1, by rw [h.2]; exact Bool.false_ne_true⟩
  · exact h5 ⟨h.1, by rw [h.2]; rfl⟩
  · exact h6 ⟨h.1, by rw [h.2]; rfl⟩

/-- Witness for `C4_validation_no_job`: an empty URL fails validation,
yields a 400 and leaves the (nonempty) job map untouched. -/
theorem C4_validation_no_job_witness :
    requestInvalid (fun _ => none) ⟨none, none, none, none, none, none⟩ ∧
    ∃ msg,
      start_download (fun _ => none) "j2" 0
          ⟨none, none, none, none, none, none⟩ [("j1", initialJobRecord 0)] =
        (HttpResult.clientError 400 msg, [("j1", initialJobRecord 0)]) ∧
      msg ≠ "" :=
  ⟨Or.inl (by decide),
   C4_validation_no_job (fun _ => none) "j2" 0 _ _ (Or.inl (by decide))⟩

/-! ## Claim C9 -/

/-- C9: when the requested output name is absent or sanitises to empty,
the Job Runner's output basename is the job's own id, and (for the
nonempty ids the store generates) the basename is therefore never
empty. -/
theorem C9_fallback_basename :
    ∀ (output_name : Option String) (job_id : String),
      (sanitize_file_basename output_name = none →
        runnerBasename output_name job_id = job_id) ∧
      (job_id ≠ "" → runnerBasename output_name job_id ≠ "") := by
  intro output_name job_id
  constructor
  · intro h
    simp [runnerBasename, h, pyOrStr]
  · intro hjid
    unfold runnerBasename pyOrStr
    cases hs : sanitize_file_basename output_name with
    | none => exact hjid
    | some s =>
      by_cases hse : s = ""
      · simp only [if_pos hse]
        exact hjid
      · simp only [if_neg hse]
        exact hse

/-- Witness for `C9_fallback_basename`: an all-symbols name sanitises to
nothing, so the job id is used and the basename is nonempty. -/
theorem C9_fallback_basename_witness :
    (sanitize_file_basename (some "...") = none ∧
      runnerBasename (some "...") "k9f2" = "k9f2") ∧
    ("k9f2" ≠ "" ∧ runnerBasename (some "...") "k9f2" ≠ "") :=
  ⟨⟨by decide, (C9_fallback_basename (some "...") "k9f2").1 (by decide)⟩,
   ⟨by decide, (C9_fallback_basename (some "...") "k9f2").2 (by decide)⟩⟩

/-! ## Claim C10 -/

/-- C10: a job record is created with the complete fixed field set —
status `queued`, progress 0, `None` error and file fields, and a creation
timestamp — and because updates only merge fields, any key present at
creation is still present after any sequence of `update_job` merges; a
fresh id looks up to exactly the initial record. -/
theorem C10_initial_fields :
    ∀ (now : ℚ),
      getField (initialJobRecord now) "status" = some (.pystr "queued") ∧
      getField (initialJobRecord now) "progress" = some (.pynum 0) ∧
      getField (initialJobRecord now) "error" = some .pynone ∧
      getField (initialJobRecord now) "file_path" = some .pynone ∧
      getField (initialJobRecord now) "file_name" = some .pynone ∧
      getField (initialJobRecord now) "saved_dir" = some .pynone ∧
      getField (initialJobRecord now) "created_at" = some (.pynum now) ∧
      (∀ (jobs : JobsMap) (jobId : String),
        lookupJob jobs jobId = none →
        lookupJob ((create_job jobId now jobs).2) jobId =
          some (initialJobRecord now)) ∧
      (∀ (updates : List (List (String × PyVal))) (k : String),
        (getField (initialJobRecord now) k).isSome →
        (getField (updates.foldl mergeFields (initialJobRecord now)) k).isSome) := by
  intro now
  refine ⟨rfl, rfl, rfl, rfl, rfl, rfl, rfl, ?_, ?_⟩
  · intro jobs jobId hnone
    have hfind : List.find? (fun kv => kv.1 = jobId) jobs = none := by
      unfold lookupJob at hnone
      exact Option.map_eq_none'.mp hnone
    unfold create_job insertJob lookupJob
    rw [List.find?_append, hfind, Option.none_or]
    rw [List.find?_cons_of_pos _ (by simp)]
    rfl
  · intro updates k h
    exact foldl_mergeFields_isSome updates (initialJobRecord now) k h

/-- Witness for `C10_initial_fields` at a concrete map, update sequence
and key. -/
theorem C10_initial_fields_witness :
    (lookupJob [] "j1" = none ∧
      lookupJob ((create_job "j1" 7 []).2) "j1" = some (initialJobRecord 7)) ∧
    ((getField (initialJobRecord 7) "status").isSome ∧
      (getField ([[("progress", PyVal.pynum 55)],
          [("status", PyVal.pystr "completed"), ("progress", PyVal.pynum 100)]].foldl
        mergeFields (initialJobRecord 7)) "status").isSome) :=
  ⟨⟨by decide, ((C10_initial_fields 7).2.2.2.2.2.2.2.1) [] "j1" (by decide)⟩,
   ⟨by decide, ((C10_initial_fields 7).2.2.2.2.2.2.2.2)
      [[("progress", PyVal.pynum 55)],
       [("status", PyVal.pystr "completed"), ("progress", PyVal.pynum 100)]]
      "status" (by decide)⟩⟩

/-! ## Claim C6 -/

theorem dropWhile_head_not {p : Char → Bool} :
    ∀ (s : List Char) (a : Char) (l : List Char),
      s.dropWhile p = a :: l → p a = false := by
  intro s
  induction s with
  | nil => intro a l h; simp [List.dropWhile] at h
  | cons c rest ih =>
    intro a l h
    rw [List.dropWhile_cons] at h
    by_cases hc : p c
    · rw [if_pos hc] at h
      exact ih a l h
    · rw [if_neg hc] at h
      cases h
      exact Bool.eq_false_iff.mpr hc

theorem dropWhile_eq_self_of_head {p : Char → Bool} (t : List Char)
    (hhead : ∀ a, t.head? = some a → p a = false) : t.dropWhile p = t := by
  cases t with
  | nil => rfl
  | cons c rest =>
    rw [List.dropWhile_cons, if_neg]
    rw [hhead c rfl]
    exact Bool.false_ne_true

theorem pyStripBoth_eq_self (p : Char → Bool) (t : List Char)
    (hhead : ∀ a, t.head? = some a → p a = false)
    (hlast : ∀ a, t.getLast? = some a → p a = false) :
    pyStripBoth p t = t := by
  unfold pyStripBoth pyDropTrailing
  rw [dropWhile_eq_self_of_head t hhead]
  rw [dropWhile_eq_self_of_head t.reverse
    (fun a ha => hlast a ((List.head?_reverse t) ▸ ha))]
  exact List.reverse_reverse t

theorem pyStripBoth_isPrefix (p : Char → Bool) (s : List Char) :
    pyStripBoth p s <+: s.dropWhile p := by
  unfold pyStripBoth pyDropTrailing
  have h3 := List.reverse_prefix.mpr
    (@List.dropWhile_suffix Char ((s.dropWhile p).reverse) p)
  rw [List.reverse_reverse] at h3
  exact h3

theorem pyStripBoth_mem {p : Char → Bool} {s : List Char} {c : Char}
    (h : c ∈ pyStripBoth p s) : c ∈ s :=
  List.Sublist.mem h
    (((pyStripBoth_isPrefix p s).sublist).trans (List.dropWhile_sublist p))

theorem pyStripBoth_head {p : Char → Bool} {s : List Char} {a : Char}
    (h : (pyStripBoth p s).head? = some a) : p a = false := by
  rcases hres : pyStripBoth p s with _ | ⟨b, l⟩
  · rw [hres] at h
    exact Option.noConfusion h
  · rw [hres] at h
    have hb : b = a := Option.some.inj h
    rcases (hres ▸ pyStripBoth_isPrefix p s) with ⟨r, hr⟩
    exact hb ▸ dropWhile_head_not s b (l ++ r) (by rw [← hr, List.cons_append])

theorem pyStripBoth_last {p : Char → Bool} {s : List Char} {a : Char}
    (h : (pyStripBoth p s).getLast? = some a) : p a = false := by
  rw [← List.head?_reverse] at h
  unfold pyStripBoth pyDropTrailing at h
  rw [List.reverse_reverse] at h
  rcases hres : (s.dropWhile p).reverse.dropWhile p with _ | ⟨b, l⟩
  · rw [hres] at h
    exact Option.noConfusion h
  · rw [hres] at h
    exact Option.some.inj h ▸ dropWhile_head_not _ b l hres

theorem splitOnChar_of_not_mem (sep : Char) (s : List Char) (h : sep ∉ s) :
    splitOnChar sep s = [s] := by
  induction s with
  | nil => rfl
  | cons c rest ih =>
    have hc : ¬ c = sep := fun e => h (e ▸ List.mem_cons_self c rest)
    have hrest : sep ∉ rest := fun hm => h (List.mem_cons_of_mem c hm)
    simp [splitOnChar, ih hrest, if_neg hc]

theorem rfindChar_eq_none (t : Char) (s : List Char) (h : t ∉ s) :
    rfindChar t s = none := by
  induction s with
  | nil => rfl
  | cons c rest ih =>
    have hc : ¬ c = t := fun e => h (e ▸ List.mem_cons_self c rest)
    have hrest : t ∉ rest := fun hm => h (List.mem_cons_of_mem c hm)
    simp [rfindChar, ih hrest, if_neg hc]

theorem keepChar_of_subbed (c : Char) :
    keepChar (if keepChar c then c else '_') = true := by
  by_cases h : keepChar c
  · rw [if_pos h]
    exact h
  · rw [if_neg h]
    decide

theorem map_keep_eq_self (s : List Char) (h : ∀ c ∈ s, keepChar c = true) :
    s.map (fun c => if keepChar c then c else '_') = s := by
  induction s with
  | nil => rfl
  | cons c rest ih =>
    rw [List.map_cons, if_pos (h c (List.mem_cons_self c rest)),
      ih (fun x hx => h x (List.mem_cons_of_mem c hx))]

/-- The shape of every successful `sanitize_file_basename` output: nonempty,
only characters from the safe class, and no space or dot at either end. -/
theorem sanitizeCore_props (s t : List Char) (h : sanitizeCore s = some t) :
    t ≠ [] ∧ (∀ c ∈ t, keepChar c = true) ∧
    (∀ a, t.head? = some a → ¬ (a = ' ' ∨ a = '.')) ∧
    (∀ a, t.getLast? = some a → ¬ (a = ' ' ∨ a = '.')) := by
  unfold sanitizeCore at h
  by_cases hempty : sanitizeSafe s = []
  · rw [if_pos hempty] at h
    exact Option.noConfusion h
  · rw [if_neg hempty] at h
    have ht : t = sanitizeSafe s := (Option.some.inj h).symm
    subst ht
    refine ⟨hempty, ?_, ?_, ?_⟩
    · intro c hc
      have hm : c ∈ (sanitizeStem s).map
          (fun c => if keepChar c then c else '_') := pyStripBoth_mem hc
      rcases List.mem_map.mp hm with ⟨x, -, hx⟩
      exact hx ▸ keepChar_of_subbed x
    · intro a ha hor
      have hp := pyStripBoth_head ha
      rcases hor with rfl | rfl <;> simp at hp
    · intro a ha hor
      have hp := pyStripBoth_last ha
      rcases hor with rfl | rfl <;> simp at hp

theorem keep_not_space (a : Char) (hk : keepChar a = true) (hne : a ≠ ' ') :
    pyIsSpaceChar a = false := by
  have h1 : ¬ a = '\t' := fun he => absurd (he ▸ hk) (by decide)
  have h2 : ¬ a = '\n' := fun he => absurd (he ▸ hk) (by decide)
  have h3 : ¬ a = '\r' := fun he => absurd (he ▸ hk) (by decide)
  have h4 : ¬ a = '\x0b' := fun he => absurd (he ▸ hk) (by decide)
  have h5 : ¬ a = '\x0c' := fun he => absurd (he ▸ hk) (by decide)
  simp [pyIsSpaceChar, hne, h1, h2, h3, h4, h5]

theorem keep_not_slash (a : Char) (hk : keepChar a = true) : a ≠ '/' :=
  fun he => absurd (he ▸ hk) (by decide)

theorem head?_mem {α : Type} {t : List α} {a : α} (h : t.head? = some a) :
    a ∈ t := by
  cases t with
  | nil => exact Option.noConfusion h
  | cons c rest => exact (Option.some.inj h) ▸ List.mem_cons_self c rest

theorem getLast?_mem {α : Type} {t : List α} {a : α} (h : t.getLast? = some a) :
    a ∈ t := by
  rw [← List.head?_reverse] at h
  exact List.mem_reverse.mp (head?_mem h)

/-- A nonempty, dot-free string over the safe character class with no
space or dot at either end is a fixed point of the sanitizer. -/
theorem sanitizeCore_fixed (t : List Char) (hne : t ≠ [])
    (hmem : ∀ c ∈ t, keepChar c = true)
    (hhead : ∀ a, t.head? = some a → ¬ (a = ' ' ∨ a = '.'))
    (hlast : ∀ a, t.getLast? = some a → ¬ (a = ' ' ∨ a = '.'))
    (hdot : '.' ∉ t) :
    sanitizeCore t = some t := by
  have hstrip : pyStripWS t = t := by
    unfold pyStripWS
    refine pyStripBoth_eq_self _ t ?_ ?_
    · intro a ha
      exact keep_not_space a (hmem a (head?_mem ha))
        (fun he => hhead a ha (Or.inl he))
    · intro a ha
      exact keep_not_space a (hmem a (getLast?_mem ha))
        (fun he => hlast a ha (Or.inl he))
  have hslash : '/' ∉ t := fun hm => keep_not_slash '/' (hmem '/' hm) rfl
  have hname : pyName t = t := by
    unfold pyName pathComponents
    rw [splitOnChar_of_not_mem '/' t hslash]
    have hTne : ¬ t = ['.'] := fun he => hdot (he ▸ List.mem_cons_self '.' [])
    rw [List.filter_cons]
    simp only [List.filter_nil]
    rw [if_pos (by simp [hne, hTne])]
    rfl
  have hsuffix : pySuffix t = [] := by
    simp only [pySuffix]
    rw [hname, rfindChar_eq_none '.' t hdot]
  have hstem : sanitizeStem t = t := by
    simp only [sanitizeStem]
    rw [hstrip, hsuffix]
    simp
  have hsafe : sanitizeSafe t = t := by
    simp only [sanitizeSafe]
    rw [hstem, map_keep_eq_self t hmem]
    refine pyStripBoth_eq_self _ t ?_ ?_
    · intro a ha
      have hna := hhead a ha
      simp only [Bool.or_eq_false_iff]
      exact ⟨decide_eq_false (fun he => hna (Or.inl he)),
        decide_eq_false (fun he => hna (Or.inr he))⟩
    · intro a ha
      have hna := hlast a ha
      simp only [Bool.or_eq_false_iff]
      exact ⟨decide_eq_false (fun he => hna (Or.inl he)),
        decide_eq_false (fun he => hna (Or.inr he))⟩
  unfold sanitizeCore
  rw [hsafe, if_neg hne]

/-- C6 counterexample: sanitisation is not idempotent — `"a.b.c"`
sanitises to the nonempty `"a.b"`, but sanitising `"a.b"` strips a
further extension and yields `"a"`. -/
theorem C6_counterexample :
    sanitize_file_basename (some "a.b.c") = some "a.b" ∧
    sanitize_file_basename (some "a.b") = some "a" ∧
    ("a" : String) ≠ "a.b" :=
  ⟨by decide, by decide, by decide⟩

/-- C6 (amended): the Path Sanitizer is idempotent on every input whose
sanitised result contains no dot; a dot in the result can be re-parsed as
an extension and stripped again, so idempotence fails exactly on such
outputs. -/
theorem C6_sanitize_idempotent (name t : String)
    (h : sanitize_file_basename (some name) = some t)
    (hdot : '.' ∉ t.data) :
    sanitize_file_basename (some t) = some t := by
  have hcore : sanitizeCore name.data = some t.data := by
    simp only [sanitize_file_basename] at h
    rcases hc : sanitizeCore name.data with _ | l
    · rw [hc] at h
      exact Option.noConfusion h
    · rw [hc] at h
      simp only [Option.map_some'] at h
      have hlt : (⟨l⟩ : String) = t := Option.some.inj h
      rw [← hlt]
  rcases sanitizeCore_props name.data t.data hcore with ⟨hne, hmem, hhead, hlast⟩
  simp only [sanitize_file_basename]
  rw [sanitizeCore_fixed t.data hne hmem hhead hlast hdot]
  rfl

/-- Witness for `C6_sanitize_idempotent`: `"My Video.mp4"` sanitises to
the dot-free `"My Video"`, which re-sanitises to itself. -/
theorem C6_sanitize_idempotent_witness :
    (sanitize_file_basename (some "My Video.mp4") = some "My Video" ∧
      '.' ∉ "My Video".data) ∧
    sanitize_file_basename (some "My Video") = some "My Video" :=
  ⟨⟨by decide, by decide⟩,
   C6_sanitize_idempotent "My Video.mp4" "My Video" (by decide) (by decide)⟩

/-! ## Claim C7 -/

theorem maxMtimeAux_mem (best : String × Nat) (l : List (String × Nat)) :
    maxMtimeAux best l ∈ best :: l := by
  induction l generalizing best with
  | nil => simp [maxMtimeAux]
  | cons y ys ih =>
    simp only [maxMtimeAux]
    by_cases h : best.2 < y.2
    · rw [if_pos h]
      exact List.mem_cons_of_mem best (ih y)
    · rw [if_neg h]
      rcases List.mem_cons.mp (ih best) with h1 | h1
      · exact List.mem_cons.mpr (Or.inl h1)
      · exact List.mem_cons.mpr (Or.inr (List.mem_cons_of_mem y h1))

theorem mostRecentMatch_mem (l : List (String × Nat)) (c : String)
    (h : mostRecentMatch l = some c) : ∃ m, (c, m) ∈ l := by
  cases l with
  | nil => exact Option.noConfusion h
  | cons x xs =>
    simp only [mostRecentMatch] at h
    have hc : (maxMtimeAux x xs).1 = c := Option.some.inj h
    refine ⟨(maxMtimeAux x xs).2, ?_⟩
    rw [← hc]
    simpa using maxMtimeAux_mem x xs

theorem fsExists_of_mem (fs : FileSys) (c : String) (m : Nat)
    (h : (c, m) ∈ fs) : fsExists fs c = true := by
  simp only [fsExists, List.any_eq_true]
  exact ⟨(c, m), h, by simp⟩

/-- C7 counterexample: with no reported path and a directory containing
only `baseX.mp4` (which starts with the expected basename `base` but has
no dot right after it), the code errors out with "output file was not
found", while the claim's scan — "files whose name starts with the
expected basename" — would pick `baseX.mp4`.  The claim also has the scan
fire whenever no path is reported, where the code first tries the default
`base.mp4` template path. -/
theorem C7_counterexample :
    finalizeDownloadedFile (InfoDict.mk (some []) none) "mp4" "/t" "base"
        [("/t/baseX.mp4", 5)] =
      Except.error "Download finished but output file was not found." ∧
    claimResolveArtifact (InfoDict.mk (some []) none) "mp4" "/t" "base"
        [("/t/baseX.mp4", 5)] =
      Except.ok "/t/baseX.mp4" :=
  ⟨by decide, by decide⟩

/-- C7 (amended): after a successful download the artifact is resolved as
follows — the candidate path is the one reported by the result metadata
(suffix overridden to `.mp3` for audio jobs) or, when none is reported,
the default `dir/basename.ext` template path; if the candidate does not
exist on disk, the target directory is scanned for files whose name is
the expected basename followed by a dot, and the most recently modified
match is chosen; only when that scan is also empty does the job error
with the "output file was not found" message. -/
theorem C7_resolution :
    ∀ (info : InfoDict) (fmt target_dir safe_name : String) (fs : FileSys),
      finalizeDownloadedFile info fmt target_dir safe_name fs =
        amendedResolveArtifact info fmt target_dir safe_name fs := by
  intro info fmt dir base fs
  simp only [finalizeDownloadedFile, amendedResolveArtifact,
    resolve_output_path]
  by_cases hex : fsExists fs (match reportedArtifactPath info fmt with
    | some p => p
    | none => defaultTemplatePath info fmt dir (some base)) = true
  · rw [if_pos hex, if_pos hex, if_pos hex]
  · rw [if_neg hex, if_neg hex]
    cases hscan : mostRecentMatch (globBaseDot fs dir base) with
    | some c =>
      have hc : fsExists fs c = true := by
        rcases mostRecentMatch_mem _ c hscan with ⟨mt, hm⟩
        exact fsExists_of_mem fs c mt (List.mem_filter.mp hm).1
      rw [if_pos hc]
    | none => rw [if_neg hex]

/-! ## Claim C5 -/

/-- C5 counterexample: `host.replace("www.", "")` removes every
occurrence of `www.`, not only a leading one, so the non-YouTube host
`youtube.www.com` is accepted by the code while the claim's
prefix-only-stripping characterisation rejects it. -/
theorem C5_counterexample :
    is_valid_youtube_url "https://youtube.www.com/watch?v=abc" = true ∧
    youtubeClaimAccept "https://youtube.www.com/watch?v=abc" = false :=
  ⟨by decide, by decide⟩

theorem pyUrlparse_netloc (u : List Char) :
    (pyUrlparse u).netloc = (pyUrlsplit u).netloc := by
  simp only [pyUrlparse]
  split
  · rfl
  · rfl

theorem lower_ascii_rev (c : Char) (h : (pyLowerChar c).toNat < 128) :
    c.toNat < 128 := by
  by_cases hc : 'A' ≤ c ∧ c ≤ 'Z'
  · have h1 := Char.le_def.mp hc.2
    have h2 := UInt32.le_def.mp h1
    have h3 : c.val.toBitVec.toNat ≤ ('Z' : Char).val.toBitVec.toNat :=
      BitVec.le_def.mp h2
    have h4 : c.toNat ≤ 90 := by simpa [Char.toNat, UInt32.toNat] using h3
    omega
  · unfold pyLowerChar at h
    rw [if_neg hc] at h
    exact h

theorem mem_replaceAllAux (pat rep : List Char) :
    ∀ (fuel : Nat) (s : List Char) (c : Char), c ∈ s →
      c ∈ strReplaceAllAux pat rep fuel s ∨ c ∈ pat := by
  intro fuel
  induction fuel with
  | zero =>
    intro s c hc
    exact Or.inl hc
  | succ f ih =>
    intro s c hc
    cases s with
    | nil => exact absurd hc (List.not_mem_nil c)
    | cons a rest =>
      simp only [strReplaceAllAux]
      by_cases hp : pat ≠ [] ∧ pat.isPrefixOf (a :: rest)
      · rw [if_pos hp]
        have htake : (a :: rest).take pat.length = pat :=
          (List.prefix_iff_eq_take.mp (List.isPrefixOf_iff_prefix.mp hp.2)).symm
        have hsplit : c ∈ (a :: rest).take pat.length ∨
            c ∈ (a :: rest).drop pat.length := by
          rw [← List.take_append_drop pat.length (a :: rest)] at hc
          exact List.mem_append.mp hc
        rcases hsplit with h1 | h1
        · exact Or.inr (htake ▸ h1)
        · rcases ih _ c h1 with h2 | h2
          · exact Or.inl (List.mem_append.mpr (Or.inr h2))
          · exact Or.inr h2
      · rw [if_neg hp]
        rcases List.mem_cons.mp hc with h1 | h1
        · exact Or.inl (List.mem_cons.mpr (Or.inl h1))
        · rcases ih rest c h1 with h2 | h2
          · exact Or.inl (List.mem_cons_of_mem a h2)
          · exact Or.inr h2

theorem mem_strReplaceAll (s pat rep : List Char) (c : Char) (hc : c ∈ s) :
    c ∈ strReplaceAll s pat rep ∨ c ∈ pat :=
  mem_replaceAllAux pat rep (s.length + 1) s c hc

theorem char_props_of_lower_mem (c : Char) (L : List Char)
    (hmem : pyLowerChar c ∈ L)
    (hL : ∀ x ∈ L, x.toNat < 128 ∧ ¬ x = '[' ∧ ¬ x = ']') :
    c.toNat < 128 ∧ ¬ c = '[' ∧ ¬ c = ']' := by
  rcases hL _ hmem with ⟨ha, hb, hbr⟩
  refine ⟨lower_ascii_rev c ha, fun he => ?_, fun he => ?_⟩
  · subst he
    exact hb (by decide)
  · subst he
    exact hbr (by decide)

theorem contains_eq_false_of (l : List Char) (a : Char)
    (h : ∀ c ∈ l, ¬ c = a) : l.contains a = false := by
  rw [← Bool.not_eq_true, List.contains_eq_any_beq]
  simp only [List.any_eq_true, not_exists]
  rintro x ⟨hx, hbx⟩
  exact h x hx (beq_iff_eq.mp hbx).symm

/-- A netloc that lowers and `www.`-collapses to an ASCII, bracket-free
host literal was itself ASCII and bracket-free, so `urlsplit` cannot
raise on it. -/
theorem urlsplitSafe_of_host (u hostLit : List Char)
    (hh : strReplaceAll (lowerStr (pyUrlsplit u).netloc) "www.".data [] =
      hostLit)
    (hlit : ∀ x ∈ hostLit, x.toNat < 128 ∧ ¬ x = '[' ∧ ¬ x = ']') :
    urlsplitSafe u = true := by
  have key : ∀ c ∈ (pyUrlsplit u).netloc,
      c.toNat < 128 ∧ ¬ c = '[' ∧ ¬ c = ']' := by
    intro c hcnl
    have hmap : pyLowerChar c ∈ lowerStr (pyUrlsplit u).netloc :=
      List.mem_map_of_mem pyLowerChar hcnl
    rcases mem_strReplaceAll _ "www.".data [] (pyLowerChar c) hmap with h1 | h1
    · exact char_props_of_lower_mem c hostLit (hh ▸ h1) hlit
    · exact char_props_of_lower_mem c "www.".data h1 (by decide)
  unfold urlsplitSafe
  rw [Bool.and_eq_true, Bool.and_eq_true]
  refine ⟨⟨?_, ?_⟩, ?_⟩
  · rw [contains_eq_false_of _ _ (fun c hc => (key c hc).2.1)]
    rfl
  · rw [contains_eq_false_of _ _ (fun c hc => (key c hc).2.2)]
    rfl
  · rw [List.all_eq_true]
    intro x hx
    unfold isAsciiCodepoint
    exact decide_eq_true (key x hx).1

/-- Every URL matching the accepted shapes has an ASCII, bracket-free
netloc: the acceptance side of the characterisation never meets an
`urlsplit` error path. -/
theorem youtubeAccept_safe (url : String)
    (h : youtubeAmendedAccept url = true) :
    youtubeParseSafe url.data = true := by
  simp only [youtubeAmendedAccept] at h
  rw [Bool.and_eq_true] at h
  rcases h with ⟨-, h⟩
  rw [Bool.or_eq_true, Bool.or_eq_true] at h
  unfold youtubeParseSafe
  have hnet := pyUrlparse_netloc (withHttpsScheme url.data)
  rcases h with (h | h) | h
  · rw [Bool.and_eq_true] at h
    exact urlsplitSafe_of_host _ _ (hnet ▸ beq_iff_eq.mp h.1) (by decide)
  · rw [Bool.and_eq_true] at h
    rcases h with ⟨h1, -⟩
    rw [Bool.and_eq_true] at h1
    rcases h1 with ⟨h1, -⟩
    rw [Bool.or_eq_true] at h1
    rcases h1 with h1 | h1
    · exact urlsplitSafe_of_host _ _ (hnet ▸ beq_iff_eq.mp h1) (by decide)
    · exact urlsplitSafe_of_host _ _ (hnet ▸ beq_iff_eq.mp h1) (by decide)
  · rw [Bool.and_eq_true] at h
    rcases h with ⟨h1, -⟩
    rw [Bool.and_eq_true] at h1
    rcases h1 with ⟨h1, -⟩
    rw [Bool.or_eq_true] at h1
    rcases h1 with h1 | h1
    · exact urlsplitSafe_of_host _ _ (hnet ▸ beq_iff_eq.mp h1) (by decide)
    · exact urlsplitSafe_of_host _ _ (hnet ▸ beq_iff_eq.mp h1) (by decide)

/-- C5 (amended): on every input whose (scheme-defaulted) netloc is
ASCII and bracket-free — the domain on which `urlparse` cannot raise, so
the embedded parser is exact — the validator returns true exactly for:
the short-link host with a non-empty path, or the canonical host with
path `/watch` and a non-empty `v` query parameter or `/shorts/` with a
non-empty id, hosts compared case-insensitively after removing every
occurrence of `www.` (not only a leading prefix), any scheme accepted
and `https://` assumed when missing.  Every URL matching the accepted
shapes lies in that safe domain, so the acceptance side is exact
unconditionally; outside the safe domain the source propagates
`urlparse`'s `ValueError` (e.g. "Invalid IPv6 URL") instead of
returning a verdict. -/
theorem C5_url_characterization :
    ∀ url : String,
      (youtubeParseSafe url.data = true →
        is_valid_youtube_url url = youtubeAmendedAccept url) ∧
      (youtubeAmendedAccept url = true → youtubeParseSafe url.data = true) := by
  intro url
  refine ⟨fun _ => ?_, youtubeAccept_safe url⟩
  simp only [is_valid_youtube_url, validYoutubeCore, youtubeAmendedAccept]
  cases hemp : url.data.isEmpty
  · simp only [hemp, Bool.not_false, Bool.true_and, if_neg Bool.false_ne_true]
    generalize strReplaceAll
      (lowerStr (pyUrlparse (withHttpsScheme url.data)).netloc)
      "www.".data [] = host
    generalize (pyUrlparse (withHttpsScheme url.data)).path = pa
    generalize (pyUrlparse (withHttpsScheme url.data)).query = q
    by_cases h1 : host = "youtu.be".data
    · subst h1
      simp +decide [beq_iff_eq]
    · rw [if_neg h1]
      by_cases h2 : host = "youtube.com".data
      · subst h2
        rw [if_pos (Or.inl rfl)]
        simp only [beq_iff_eq, if_neg h1]
        by_cases h4 : pa = "/watch".data
        · subst h4
          simp +decide
        · rw [if_neg h4]
          by_cases h5 : "/shorts/".data.isPrefixOf pa
          · simp +decide [h4, h5, beq_iff_eq]
          · simp +decide [h4, h5, beq_iff_eq]
      · by_cases h3 : host = "m.youtube.com".data
        · subst h3
          rw [if_pos (Or.inr rfl)]
          simp only [beq_iff_eq]
          by_cases h4 : pa = "/watch".data
          · subst h4
            simp +decide
          · rw [if_neg h4]
            by_cases h5 : "/shorts/".data.isPrefixOf pa
            · simp +decide [h4, h5, beq_iff_eq]
            · simp +decide [h4, h5, beq_iff_eq]
        · rw [if_neg (fun hc => hc.elim h2 h3)]
          simp [beq_iff_eq, h1, h2, h3]
  · simp [hemp]

/-- Witness for `C5_url_characterization` at a concrete safe URL. -/
theorem C5_url_characterization_witness :
    (youtubeParseSafe "https://youtu.be/abc".data = true ∧
      is_valid_youtube_url "https://youtu.be/abc" =
        youtubeAmendedAccept "https://youtu.be/abc") ∧
    (youtubeAmendedAccept "https://youtu.be/abc" = true ∧
      youtubeParseSafe "https://youtu.be/abc".data = true) :=
  ⟨⟨by decide, (C5_url_characterization "https://youtu.be/abc").1 (by decide)⟩,
   ⟨by decide, (C5_url_characterization "https://youtu.be/abc").2 (by decide)⟩⟩

/-! ## Claim C8 -/

/-- The value set every individual metric score is drawn from. -/
def scoreOk (s : Option Nat) : Prop :=
  s = none ∨ s = some 45 ∨ s = some 75 ∨ s = some 95

theorem scoreOk_higher (v : Option ℚ) (g o : ℚ) :
    scoreOk (score_higher_better v g o) := by
  cases v with
  | none => exact Or.inl rfl
  | some x =>
    simp only [score_higher_better, scoreOk]
    by_cases h1 : g ≤ x
    · rw [if_pos h1]
      exact Or.inr (Or.inr (Or.inr rfl))
    · rw [if_neg h1]
      by_cases h2 : o ≤ x
      · rw [if_pos h2]
        exact Or.inr (Or.inr (Or.inl rfl))
      · rw [if_neg h2]
        exact Or.inr (Or.inl rfl)

theorem scoreOk_lower (v : Option ℚ) (g o : ℚ) :
    scoreOk (score_lower_better v g o) := by
  cases v with
  | none => exact Or.inl rfl
  | some x =>
    simp only [score_lower_better, scoreOk]
    by_cases h1 : x ≤ g
    · rw [if_pos h1]
      exact Or.inr (Or.inr (Or.inr rfl))
    · rw [if_neg h1]
      by_cases h2 : x ≤ o
      · rw [if_pos h2]
        exact Or.inr (Or.inr (Or.inl rfl))
      · rw [if_neg h2]
        exact Or.inr (Or.inl rfl)

theorem mem_addMetric (st : List MetricEntry × List String) (sp : MetricSpec)
    (e : MetricEntry) (h : e ∈ (addMetric st sp).1) :
    e ∈ st.1 ∨ e.score = sp.score := by
  unfold addMetric at h
  cases hs : sp.score with
  | none =>
    rw [hs] at h
    simp only at h
    rcases List.mem_append.mp h with h1 | h1
    · exact Or.inl h1
    · rw [List.mem_singleton] at h1
      subst h1
      exact Or.inr rfl
  | some sc =>
    rw [hs] at h
    simp only at h
    have h2 : e ∈ st.1 ++ [(⟨sp.name, sp.value, some sc,
        if 90 ≤ sc then "Excellent" else if 70 ≤ sc then "Good"
        else "Needs Work"⟩ : MetricEntry)] := by
      split at h
      · exact h
      · split at h <;> exact h
    rcases List.mem_append.mp h2 with h1 | h1
    · exact Or.inl h1
    · rw [List.mem_singleton] at h1
      subst h1
      exact Or.inr rfl

theorem foldl_addMetric_scores (specs : List MetricSpec) :
    ∀ st, (∀ e ∈ st.1, scoreOk e.score) →
      (∀ sp ∈ specs, scoreOk sp.score) →
      ∀ e ∈ (specs.foldl addMetric st).1, scoreOk e.score := by
  induction specs with
  | nil =>
    intro st hst _ e he
    exact hst e he
  | cons sp rest ih =>
    intro st hst hsp e he
    rw [List.foldl_cons] at he
    refine ih (addMetric st sp) ?_
      (fun x hx => hsp x (List.mem_cons_of_mem sp hx)) e he
    intro x hx
    rcases mem_addMetric st sp x hx with h1 | h1
    · exact hst x h1
    · rw [h1]
      exact hsp sp (List.mem_cons_self sp rest)

theorem baseMetricSpecs_scoreOk (a1 a2 a3 a4 a5 a6 a7 a8 a9 a10 a11 a12 a13
    a14 a15 a16 a17 a18 a19 : Option ℚ) :
    ∀ sp ∈ baseMetricSpecs a1 a2 a3 a4 a5 a6 a7 a8 a9 a10 a11 a12 a13 a14
      a15 a16 a17 a18 a19, scoreOk sp.score := by
  intro sp hsp
  simp only [baseMetricSpecs, List.mem_cons, List.not_mem_nil, or_false] at hsp
  rcases hsp with rfl | rfl | rfl | rfl | rfl | rfl | rfl | rfl | rfl | rfl |
    rfl | rfl | rfl | rfl | rfl | rfl | rfl | rfl | rfl
  all_goals first
    | exact scoreOk_higher _ _ _
    | exact scoreOk_lower _ _ _

theorem computeEngagementRate_some (views er likes comments shares : Option ℚ) :
    ∃ x, computeEngagementRate views er likes comments shares = some x := by
  unfold computeEngagementRate
  cases views with
  | none => cases er <;> exact ⟨_, rfl⟩
  | some v =>
    cases er with
    | some e => exact ⟨_, rfl⟩
    | none =>
      simp only []
      by_cases h : v ≠ 0 ∧ 0 < v
      · rw [if_pos h]
        simp only [pyDivQ, if_neg h.1, Option.map_some']
        exact ⟨_, rfl⟩
      · rw [if_neg h]
        exact ⟨_, rfl⟩

theorem computeSubToView_some (views sv subs_gained : Option ℚ) :
    ∃ x, computeSubToView views sv subs_gained = some x := by
  unfold computeSubToView
  cases views with
  | none => cases sv <;> exact ⟨_, rfl⟩
  | some v =>
    cases sv with
    | some s => exact ⟨_, rfl⟩
    | none =>
      simp only []
      by_cases h : v ≠ 0 ∧ 0 < v
      · rw [if_pos h]
        simp only [pyDivQ, if_neg h.1, Option.map_some']
        exact ⟨_, rfl⟩
      · rw [if_neg h]
        exact ⟨_, rfl⟩

theorem computeApv_some (apv avd duration : Option ℚ) :
    ∃ x, computeApv apv avd duration = some x := by
  unfold computeApv
  cases apv with
  | some a => cases avd <;> exact ⟨_, rfl⟩
  | none =>
    cases avd with
    | none => exact ⟨_, rfl⟩
    | some a =>
      cases duration with
      | none => exact ⟨_, rfl⟩
      | some d =>
        simp only []
        by_cases h : d ≠ 0 ∧ 0 < d
        · rw [if_pos h]
          simp only [pyDivQ, if_neg h.1, Option.map_some']
          exact ⟨_, rfl⟩
        · rw [if_neg h]
          exact ⟨_, rfl⟩

theorem impressionSpec_some (views impressions : Option ℚ) :
    ∃ l, impressionSpec views impressions = some l ∧
      ∀ sp ∈ l, scoreOk sp.score := by
  unfold impressionSpec
  cases views with
  | none => exact ⟨[], rfl, by simp⟩
  | some v =>
    cases impressions with
    | none => exact ⟨[], rfl, by simp⟩
    | some imp =>
      simp only []
      by_cases h : 0 < imp
      · rw [if_pos h]
        simp only [pyDivQ, if_neg (ne_of_gt h), Option.map_some']
        refine ⟨_, rfl, ?_⟩
        intro sp hsp
        rw [List.mem_singleton] at hsp
        subst hsp
        exact scoreOk_higher (some (v / imp * 100)) 6 3
      · rw [if_neg h]
        exact ⟨[], rfl, by simp⟩

theorem likeRatioSpec_some (likes dislikes : Option ℚ) :
    ∃ l, likeRatioSpec likes dislikes = some l ∧
      ∀ sp ∈ l, scoreOk sp.score := by
  unfold likeRatioSpec
  cases likes with
  | none => exact ⟨[], rfl, by simp⟩
  | some l =>
    cases dislikes with
    | none => exact ⟨[], rfl, by simp⟩
    | some d =>
      simp only []
      by_cases h : 0 < l + d
      · rw [if_pos h]
        simp only [pyDivQ, if_neg (ne_of_gt h), Option.map_some']
        refine ⟨_, rfl, ?_⟩
        intro sp hsp
        rw [List.mem_singleton] at hsp
        subst hsp
        exact scoreOk_higher (some (l / (l + d) * 100)) 95 85
      · rw [if_neg h]
        exact ⟨[], rfl, by simp⟩

theorem sum_bounds_of_mem (l : List Nat) (h : ∀ x ∈ l, 45 ≤ x ∧ x ≤ 95) :
    45 * l.length ≤ l.sum ∧ l.sum ≤ 95 * l.length := by
  induction l with
  | nil => simp
  | cons x xs ih =>
    have hx := h x (List.mem_cons_self x xs)
    have hxs := ih (fun y hy => h y (List.mem_cons_of_mem x hy))
    simp only [List.sum_cons, List.length_cons]
    omega

theorem mean_bounds (l : List Nat) (hne : l ≠ [])
    (h : ∀ x ∈ l, 45 ≤ x ∧ x ≤ 95) :
    45 ≤ l.sum / l.length ∧ l.sum / l.length ≤ 95 := by
  have hlen : 0 < l.length := List.length_pos.mpr hne
  rcases sum_bounds_of_mem l h with ⟨hlow, hhigh⟩
  constructor
  · exact (Nat.le_div_iff_mul_le hlen).mpr hlow
  · calc l.sum / l.length ≤ 95 * l.length / l.length :=
      Nat.div_le_div_right hhigh
    _ = 95 := Nat.mul_div_cancel 95 hlen

theorem assembleAnalysis_props (specs : List MetricSpec)
    (h : ∀ sp ∈ specs, scoreOk sp.score) :
    (∀ e ∈ (assembleAnalysis specs).metrics, scoreOk e.score) ∧
    (assembleAnalysis specs).overall_score =
      (if ((assembleAnalysis specs).metrics.filterMap
          (fun e => e.score)).isEmpty then 0
       else ((assembleAnalysis specs).metrics.filterMap
          (fun e => e.score)).sum /
         ((assembleAnalysis specs).metrics.filterMap
          (fun e => e.score)).length) ∧
    ((assembleAnalysis specs).metrics.filterMap (fun e => e.score) ≠ [] →
      45 ≤ (assembleAnalysis specs).overall_score ∧
        (assembleAnalysis specs).overall_score ≤ 95) := by
  have hmet : ∀ e ∈ (assembleAnalysis specs).metrics, scoreOk e.score :=
    foldl_addMetric_scores specs ([], []) (by simp) h
  refine ⟨hmet, rfl, ?_⟩
  intro hne
  have hbounds : ∀ x ∈ (assembleAnalysis specs).metrics.filterMap
      (fun e => e.score), 45 ≤ x ∧ x ≤ 95 := by
    intro x hx
    rcases List.mem_filterMap.mp hx with ⟨e, he, hex⟩
    rcases hmet e he with h0 | h0 | h0 | h0 <;> rw [h0] at hex <;>
      first
        | exact Option.noConfusion hex
        | (rw [← Option.some.inj hex]; omega)
  have hmean := mean_bounds _ hne hbounds
  have hov : (assembleAnalysis specs).overall_score =
      ((assembleAnalysis specs).metrics.filterMap (fun e => e.score)).sum /
        ((assembleAnalysis specs).metrics.filterMap (fun e => e.score)).length := by
    have hie : ((assembleAnalysis specs).metrics.filterMap
        (fun e => e.score)).isEmpty = false := by
      rw [List.isEmpty_eq_false]
      exact hne
    show (if ((assembleAnalysis specs).metrics.filterMap
        (fun e => e.score)).isEmpty = true then 0
      else ((assembleAnalysis specs).metrics.filterMap (fun e => e.score)).sum /
        ((assembleAnalysis specs).metrics.filterMap (fun e => e.score)).length) = _
    rw [hie]
    simp
  rw [hov]
  exact hmean

/-- C8: for every metrics object the analysis returns a result (all
divisions are guarded, so nothing raises), every individual score is
absent or one of exactly {45, 75, 95}, and the overall score is the
integer mean of the present scores — hence between 45 and 95 — when any
score is present, and 0 otherwise. -/
theorem C8_metrics_analysis :
    ∀ m : String → PyVal,
      ∃ r, analyze_metrics m = some r ∧
        (∀ e ∈ r.metrics, scoreOk e.score) ∧
        r.overall_score =
          (if (r.metrics.filterMap (fun e => e.score)).isEmpty then 0
           else (r.metrics.filterMap (fun e => e.score)).sum /
             (r.metrics.filterMap (fun e => e.score)).length) ∧
        (r.metrics.filterMap (fun e => e.score) ≠ [] →
          45 ≤ r.overall_score ∧ r.overall_score ≤ 95) := by
  intro m
  obtain ⟨er, her⟩ := computeEngagementRate_some (safe_float (m "views"))
    (safe_float (m "engagement_rate")) (safe_float (m "likes"))
    (safe_float (m "comments")) (safe_float (m "shares"))
  obtain ⟨sv, hsv⟩ := computeSubToView_some (safe_float (m "views"))
    (safe_float (m "sub_to_view_ratio")) (safe_float (m "subs_gained"))
  obtain ⟨ap, hap⟩ := computeApv_some (safe_float (m "apv"))
    (safe_float (m "avd")) (safe_float (m "duration_seconds"))
  obtain ⟨im, him, himok⟩ := impressionSpec_some (safe_float (m "views"))
    (safe_float (m "impressions"))
  obtain ⟨lk, hlk, hlkok⟩ := likeRatioSpec_some (safe_float (m "likes"))
    (safe_float (m "dislikes"))
  have heq : analyze_metrics m = some (assembleAnalysis
      (baseMetricSpecs (safe_float (m "ctr")) (safe_float (m "avd")) ap er
        (safe_float (m "audience_retention"))
        (safe_float (m "relative_retention")) sv
        (safe_float (m "end_screen_ctr")) (safe_float (m "shares"))
        (safe_float (m "comments")) (safe_float (m "subs_gained"))
        (safe_float (m "subs_lost")) (safe_float (m "returning_viewers"))
        (safe_float (m "new_viewers")) (safe_float (m "card_teaser_clicks"))
        (safe_float (m "rpm")) (safe_float (m "cpm"))
        (safe_float (m "playback_cpm")) (safe_float (m "estimated_revenue"))
        ++ im ++ lk)) := by
    simp only [analyze_metrics]
    rw [her, hsv, hap, him, hlk]
    rfl
  refine ⟨_, heq, ?_⟩
  have hok : ∀ sp ∈ baseMetricSpecs (safe_float (m "ctr"))
      (safe_float (m "avd")) ap er (safe_float (m "audience_retention"))
      (safe_float (m "relative_retention")) sv
      (safe_float (m "end_screen_ctr")) (safe_float (m "shares"))
      (safe_float (m "comments")) (safe_float (m "subs_gained"))
      (safe_float (m "subs_lost")) (safe_float (m "returning_viewers"))
      (safe_float (m "new_viewers")) (safe_float (m "card_teaser_clicks"))
      (safe_float (m "rpm")) (safe_float (m "cpm"))
      (safe_float (m "playback_cpm")) (safe_float (m "estimated_revenue"))
      ++ im ++ lk, scoreOk sp.score := by
    intro sp hsp
    rcases List.mem_append.mp hsp with h1 | h1
    · rcases List.mem_append.mp h1 with h2 | h2
      · exact baseMetricSpecs_scoreOk _ _ _ _ _ _ _ _ _ _ _ _ _ _ _ _ _ _ _
          sp h2
      · exact himok sp h2
    · exact hlkok sp h1
  exact assembleAnalysis_props _ hok

/-- Witness for `C8_metrics_analysis` at a concrete metrics object with
one present score. -/
theorem C8_metrics_analysis_witness :
    ∃ r, analyze_metrics
        (fun k => if k = "ctr" then PyVal.pynum 7 else PyVal.pynone) =
      some r ∧ (∃ e, e ∈ r.metrics ∧ scoreOk e.score) ∧
      45 ≤ r.overall_score ∧ r.overall_score ≤ 95 := by
  obtain ⟨r, hr, hok, hov, hbound⟩ := C8_metrics_analysis
    (fun k => if k = "ctr" then PyVal.pynum 7 else PyVal.pynone)
  have hval : (analyze_metrics
      (fun k => if k = "ctr" then PyVal.pynum 7 else PyVal.pynone)).map
        (fun r => !(r.metrics.filterMap (fun e => e.score)).isEmpty) =
      some true := by decide
  rw [hr] at hval
  simp only [Option.map_some'] at hval
  have hne : r.metrics.filterMap (fun e => e.score) ≠ [] := by
    rw [← List.isEmpty_eq_false]
    rcases hie : (r.metrics.filterMap (fun e => e.score)).isEmpty
    · exact hie
    · rw [hie] at hval
      exact absurd (Option.some.inj hval) (by decide)
  have hmem : ∃ e, e ∈ r.metrics ∧ scoreOk e.score := by
    cases hm : r.metrics with
    | nil =>
      rw [hm] at hne
      exact absurd rfl hne
    | cons a t =>
      exact ⟨a, hm ▸ List.mem_cons_self a t, hok a (hm ▸ List.mem_cons_self a t)⟩
  exact ⟨r, hr, hmem, hbound hne⟩

end MediaDL
